import Mathlib

/-!
Verification of the `loom` preference store (`loom/core/preferences.py`) and
its path utilities (`loom/utils/paths.py`).

The Python module stores JSON-encoded values in an UnQLite key-value file
under keys carrying the namespace marker `"prefs:"`.  The embedding below
models:

* Python text (`str`/`bytes` content) as `List Char`;
* the UnQLite mapping as an association list of key/value text pairs
  (UnQLite keys are unique, so well-formed states have `Nodup` keys);
* Python's JSON `dumps`/`loads` as an executable printer and parser over a
  tagged value type `PyVal`.  Machine floats are modelled as exact decimal
  significand/exponent pairs, their `repr` as scientific notation; the JSON
  number grammar is slightly permissive (leading zeros are accepted) and the
  non-standard literals `NaN`/`Infinity` as well as lone escaped surrogates
  are rejected, none of which the preference store's behaviour depends on.
-/

namespace Loom

/-- Python text (the content of a `str` or of UTF-8 `bytes`). -/
abbrev Str := List Char

/-- JSON insignificant whitespace: space, tab, line feed, carriage return. -/
def isWsChar (c : Char) : Bool :=
  c.toNat = 32 || c.toNat = 9 || c.toNat = 10 || c.toNat = 13

/-- ASCII decimal digit test. -/
def isDigitChar (c : Char) : Bool :=
  48 ≤ c.toNat && c.toNat ≤ 57

/-- Numeric value of an ASCII digit. -/
def digitVal (c : Char) : Nat := c.toNat - 48

/-- The ASCII digit for a value below ten. -/
def digitChar (d : Nat) : Char :=
  if d = 0 then '0' else if d = 1 then '1' else if d = 2 then '2'
  else if d = 3 then '3' else if d = 4 then '4' else if d = 5 then '5'
  else if d = 6 then '6' else if d = 7 then '7' else if d = 8 then '8'
  else '9'

/-- Big-endian accumulation of digit characters onto a running value. -/
def digitsVal : List Char → Nat → Nat
  | [], a => a
  | c :: r, a => digitsVal r (a * 10 + digitVal c)

/-- Fuelled digit extraction for `str(int)`: peels decimal digits of `n`
least-significant first onto `acc`.  Fuel `n` itself always suffices. -/
def natDigitsGo : Nat → Nat → List Char → List Char
  | 0, _, acc => acc
  | f + 1, n, acc => if n = 0 then acc else natDigitsGo f (n / 10) (digitChar (n % 10) :: acc)

/-- Decimal digits of a natural number, as Python's `str` renders it. -/
def natDigits (n : Nat) : List Char :=
  if n = 0 then ['0'] else natDigitsGo n n []

/-- Decimal rendering of a Python integer, sign included. -/
def intDigits (n : Int) : List Char :=
  if n < 0 then '-' :: natDigits n.natAbs else natDigits n.toNat

/-- Consume a maximal run of decimal digits, big-endian, onto accumulator `a`. -/
def parseNatAux : List Char → Nat → Nat × List Char
  | [], a => (a, [])
  | c :: r, a => if isDigitChar c then parseNatAux r (a * 10 + digitVal c) else (a, c :: r)

/-- Parse a nonempty run of decimal digits; fails if the input does not start
with a digit. -/
def parseNat : List Char → Option (Nat × List Char)
  | [] => Option.none
  | c :: r => if isDigitChar c then some (parseNatAux r (digitVal c)) else Option.none

/-- The remaining input does not begin with a digit (so a digit run ends). -/
def noDigitHead : List Char → Prop
  | [] => True
  | c :: _ => isDigitChar c = false

/-- Lowercase hex digit, as Python's `json` emits in `\uXXXX` escapes. -/
def hexDigitChar (n : Nat) : Char :=
  if n = 0 then '0' else if n = 1 then '1' else if n = 2 then '2'
  else if n = 3 then '3' else if n = 4 then '4' else if n = 5 then '5'
  else if n = 6 then '6' else if n = 7 then '7' else if n = 8 then '8'
  else if n = 9 then '9' else if n = 10 then 'a' else if n = 11 then 'b'
  else if n = 12 then 'c' else if n = 13 then 'd' else if n = 14 then 'e'
  else 'f'

/-- Value of a hex digit character, either case. -/
def hexVal (c : Char) : Option Nat :=
  if 48 ≤ c.toNat ∧ c.toNat ≤ 57 then some (c.toNat - 48)
  else if 97 ≤ c.toNat ∧ c.toNat ≤ 102 then some (c.toNat - 87)
  else if 65 ≤ c.toNat ∧ c.toNat ≤ 70 then some (c.toNat - 55)
  else Option.none

/-- Four-digit hex rendering of a code unit below `0x10000`. -/
def hex4 (n : Nat) : List Char :=
  [hexDigitChar (n / 4096 % 16), hexDigitChar (n / 256 % 16),
   hexDigitChar (n / 16 % 16), hexDigitChar (n % 16)]

/-- One character as Python's `json.dumps` (default `ensure_ascii=True`) emits
it inside a string: short escapes for the usual controls, the character itself
for printable ASCII, `\uXXXX` otherwise, with surrogate pairs above `0xFFFF`. -/
def escapeChar (c : Char) : List Char :=
  if c = '"' then ['\\', '"']
  else if c = '\\' then ['\\', '\\']
  else if c = '\n' then ['\\', 'n']
  else if c = '\r' then ['\\', 'r']
  else if c = '\t' then ['\\', 't']
  else if c.toNat = 8 then ['\\', 'b']
  else if c.toNat = 12 then ['\\', 'f']
  else if 32 ≤ c.toNat ∧ c.toNat ≤ 126 then [c]
  else if c.toNat < 65536 then '\\' :: 'u' :: hex4 c.toNat
  else
    ('\\' :: 'u' :: hex4 (55296 + (c.toNat - 65536) / 1024)) ++
      ('\\' :: 'u' :: hex4 (56320 + (c.toNat - 65536) % 1024))

/-- Escaped body of a JSON string literal. -/
def escBody : Str → List Char
  | [] => []
  | c :: s => escapeChar c ++ escBody s

/-- A whole JSON string literal for `s`, quotes included. -/
def encodeStr (s : Str) : List Char := '"' :: (escBody s ++ ['"'])

/-- Single-character escapes accepted after a backslash (besides `\uXXXX`). -/
def escChar1 (e : Char) : Option Char :=
  if e = '"' then some '"'
  else if e = '\\' then some '\\'
  else if e = '/' then some '/'
  else if e = 'b' then some (Char.ofNat 8)
  else if e = 'f' then some (Char.ofNat 12)
  else if e = 'n' then some '\n'
  else if e = 'r' then some '\r'
  else if e = 't' then some '\t'
  else Option.none

/-- Value of four consecutive hex digits. -/
def hexQuad (a b c d : Char) : Option Nat :=
  match hexVal a, hexVal b, hexVal c, hexVal d with
  | some x1, some x2, some x3, some x4 => some (((x1 * 16 + x2) * 16 + x3) * 16 + x4)
  | _, _, _, _ => Option.none

mutual

/-- Scan the body of a JSON string literal up to its closing quote, returning
the UTF-16-style code units denoted (raw characters as their code points,
each `\uXXXX` escape as its value) and the input after the quote. -/
def parseStrBody : List Char → Option (List Nat × List Char)
  | [] => Option.none
  | c :: r =>
    if c = '"' then some ([], r)
    else if c = '\\' then parseEscape r
    else (parseStrBody r).map (fun p => (c.toNat :: p.1, p.2))

/-- Scan what follows a backslash inside a string literal. -/
def parseEscape : List Char → Option (List Nat × List Char)
  | [] => Option.none
  | e :: r =>
    if e = 'u' then parseU r
    else
      (match escChar1 e with
       | some c => (parseStrBody r).map (fun p => (c.toNat :: p.1, p.2))
       | Option.none => Option.none)

/-- Scan the four hex digits of a `\uXXXX` escape. -/
def parseU : List Char → Option (List Nat × List Char)
  | a :: b :: c :: d :: r =>
    (match hexQuad a b c d with
     | some n => (parseStrBody r).map (fun p => (n :: p.1, p.2))
     | Option.none => Option.none)
  | _ => Option.none

end

mutual

/-- Combine a scanned code-unit sequence into text: an escaped surrogate pair
becomes the astral character it denotes; a lone surrogate is rejected (Lean
`Char` cannot carry it; the store never produces one). -/
def unitsToChars : List Nat → Option Str
  | [] => some []
  | n :: rest =>
    if 55296 ≤ n ∧ n < 56320 then surrPair n rest
    else if n < 55296 ∨ (57344 ≤ n ∧ n < 1114112) then
      (unitsToChars rest).map (fun s => Char.ofNat n :: s)
    else Option.none

/-- Combine the low half of a surrogate pair whose high half was `hi`. -/
def surrPair : Nat → List Nat → Option Str
  | _, [] => Option.none
  | hi, m :: rest2 =>
    if 56320 ≤ m ∧ m < 57344 then
      (unitsToChars rest2).map
        (fun s => Char.ofNat (65536 + (hi - 55296) * 1024 + (m - 56320)) :: s)
    else Option.none

end

/-- Parse a JSON string literal body and decode it to text. -/
def parseJStr (l : List Char) : Option (Str × List Char) :=
  match parseStrBody l with
  | some (us, r) =>
    (match unitsToChars us with
     | some s => some (s, r)
     | Option.none => Option.none)
  | Option.none => Option.none

/-- Code units a character contributes to a scanned string body. -/
def charUnits (c : Char) : List Nat :=
  if c.toNat < 65536 then [c.toNat]
  else [55296 + (c.toNat - 65536) / 1024, 56320 + (c.toNat - 65536) % 1024]

/-- Code units of a whole string. -/
def strUnits : Str → List Nat
  | [] => []
  | c :: s => charUnits c ++ strUnits s

/-- A Python runtime value as the preference store meets it: the JSON shapes
(`None`, `bool`, `int`, `float`, `str`, `list`, string-keyed `dict`), raw
`bytes` as fetched from UnQLite, and `obj` for any other object (one that
`json.dumps` cannot serialize).  A machine float is modelled exactly as the
decimal significand/exponent pair its shortest `repr` denotes. -/
inductive PyVal where
  | none
  | bool (b : Bool)
  | int (n : Int)
  | float (m : Int) (e : Int)
  | str (s : Str)
  | bytes (s : Str)
  | list (xs : List PyVal)
  | dict (kvs : List (Str × PyVal))
  | obj

instance : Inhabited PyVal := ⟨PyVal.none⟩

/-- A Python `dict` with string keys, insertion-ordered. -/
abbrev PyDict := List (Str × PyVal)

/-- Assignment `d[k] = v` on an insertion-ordered dict: overwrite in place if
the key exists, append otherwise. -/
def dictInsert (d : PyDict) (k : Str) (v : PyVal) : PyDict :=
  if k ∈ d.map Prod.fst then d.map (fun e => if e.1 = k then (k, v) else e)
  else d ++ [(k, v)]

/-- `dict.get`-style lookup on an insertion-ordered dict. -/
def dictGet : PyDict → Str → Option PyVal
  | [], _ => Option.none
  | (k', v) :: rest, k => if k' = k then some v else dictGet rest k

/-- Join serialized fragments with `json.dumps`'s default item separator. -/
def sepParts : List (List Char) → List Char
  | [] => []
  | [p] => p
  | p :: ps => p ++ ',' :: ' ' :: sepParts ps

mutual

/-- Python's `json.dumps` with default options (`ensure_ascii=True`,
separators `", "` and `": "`): `Option.none` is a raised `TypeError` for a
value that is not JSON serializable. -/
def dumps : PyVal → Option (List Char)
  | .none => some "null".data
  | .bool b => some (if b then "true".data else "false".data)
  | .int n => some (intDigits n)
  | .float m e => some (intDigits m ++ 'e' :: intDigits e)
  | .str s => some (encodeStr s)
  | .bytes _ => Option.none
  | .obj => Option.none
  | .list xs => (dumpsList xs).map (fun parts => '[' :: (sepParts parts ++ [']']))
  | .dict kvs => (dumpsDict kvs).map (fun parts => '{' :: (sepParts parts ++ ['}']))

/-- Serialized fragments of a list's elements. -/
def dumpsList : List PyVal → Option (List (List Char))
  | [] => some []
  | v :: vs =>
    (match dumps v, dumpsList vs with
     | some d, some ds => some (d :: ds)
     | _, _ => Option.none)

/-- Serialized `key: value` fragments of a dict's members. -/
def dumpsDict : List (Str × PyVal) → Option (List (List Char))
  | [] => some []
  | (k, v) :: rest =>
    (match dumps v, dumpsDict rest with
     | some d, some ds => some ((encodeStr k ++ ':' :: ' ' :: d) :: ds)
     | _, _ => Option.none)

end

mutual

/-- The JSON-representable values: no `bytes`, no foreign objects, and every
`dict` has distinct keys (as Python dicts do by construction). -/
def jsonable : PyVal → Bool
  | .none => true
  | .bool _ => true
  | .int _ => true
  | .float _ _ => true
  | .str _ => true
  | .bytes _ => false
  | .obj => false
  | .list xs => jsonableList xs
  | .dict kvs => decide (kvs.map Prod.fst).Nodup && jsonableDict kvs

/-- Every element is JSON-representable. -/
def jsonableList : List PyVal → Bool
  | [] => true
  | v :: vs => jsonable v && jsonableList vs

/-- Every member value is JSON-representable. -/
def jsonableDict : List (Str × PyVal) → Bool
  | [] => true
  | (_, v) :: rest => jsonable v && jsonableDict rest

end

/-- Drop JSON insignificant whitespace. -/
def skipWs : List Char → List Char
  | [] => []
  | c :: r => if isWsChar c then skipWs r else c :: r

/-- Match an expected literal continuation, returning the input after it. -/
def stripLit : List Char → List Char → Option (List Char)
  | [], l => some l
  | _ :: _, [] => Option.none
  | p :: ps, c :: r => if c = p then stripLit ps r else Option.none

/-- Consume a maximal digit run, also counting the digits consumed. -/
def parseNatCnt : List Char → Nat → Nat → Nat × Nat × List Char
  | [], a, k => (a, k, [])
  | c :: r, a, k =>
    if isDigitChar c then parseNatCnt r (a * 10 + digitVal c) (k + 1) else (a, k, c :: r)

/-- Integer of the given magnitude with an optional leading minus sign. -/
def applySign (neg : Bool) (n : Nat) : Int := if neg then -(n : Int) else (n : Int)

/-- Parse the digits of an exponent (after `e`/`E`), with optional sign, and
produce the float with significand `sig` and base exponent `e0`. -/
def parseExpPart (sig : Int) (e0 : Int) : List Char → Option (PyVal × List Char)
  | [] => Option.none
  | c :: r =>
    if c = '-' then
      (match parseNat r with
       | some (ex, r2) => some (.float sig (e0 - (ex : Int)), r2)
       | Option.none => Option.none)
    else if c = '+' then
      (match parseNat r with
       | some (ex, r2) => some (.float sig (e0 + (ex : Int)), r2)
       | Option.none => Option.none)
    else
      (match parseNat (c :: r) with
       | some (ex, r2) => some (.float sig (e0 + (ex : Int)), r2)
       | Option.none => Option.none)

/-- Continue a number after an integer part and a fraction of value `f` over
`k` digits: an optional exponent ends a float. -/
def afterFrac (neg : Bool) (ip f k : Nat) : List Char → Option (PyVal × List Char)
  | [] => some (.float (applySign neg (ip * 10 ^ k + f)) (-(k : Int)), [])
  | c :: r2 =>
    if c = 'e' ∨ c = 'E' then parseExpPart (applySign neg (ip * 10 ^ k + f)) (-(k : Int)) r2
    else some (.float (applySign neg (ip * 10 ^ k + f)) (-(k : Int)), c :: r2)

/-- Continue a number after its integer part: fraction and exponent make a
float, otherwise the value stays an integer. -/
def parseAfterInt (neg : Bool) (ip : Nat) : List Char → Option (PyVal × List Char)
  | [] => some (.int (applySign neg ip), [])
  | c :: r2 =>
    if c = '.' then
      (match r2 with
       | d0 :: r3 =>
         if isDigitChar d0 then
           (match parseNatCnt r3 (digitVal d0) 1 with
            | (f, k, r4) => afterFrac neg ip f k r4)
         else Option.none
       | [] => Option.none)
    else if c = 'e' ∨ c = 'E' then parseExpPart (applySign neg ip) 0 r2
    else some (.int (applySign neg ip), c :: r2)

/-- Parse a JSON number.  Slightly more permissive than Python's grammar
(leading zeros are accepted); `NaN`/`Infinity` are not modelled. -/
def parseNumber : List Char → Option (PyVal × List Char)
  | [] => Option.none
  | c :: r =>
    if c = '-' then
      (match parseNat r with
       | some (ip, r1) => parseAfterInt true ip r1
       | Option.none => Option.none)
    else
      (match parseNat (c :: r) with
       | some (ip, r1) => parseAfterInt false ip r1
       | Option.none => Option.none)

mutual

/-- Parse one JSON value, fuelled; `loads` supplies fuel exceeding the input
length, which always suffices. -/
def parseValue : Nat → List Char → Option (PyVal × List Char)
  | 0, _ => Option.none
  | f + 1, l =>
    (match skipWs l with
     | [] => Option.none
     | c :: r =>
       if c = 'n' then
         (match stripLit "ull".data r with
          | some r' => some (.none, r')
          | Option.none => Option.none)
       else if c = 't' then
         (match stripLit "rue".data r with
          | some r' => some (.bool true, r')
          | Option.none => Option.none)
       else if c = 'f' then
         (match stripLit "alse".data r with
          | some r' => some (.bool false, r')
          | Option.none => Option.none)
       else if c = '"' then
         (match parseJStr r with
          | some (s, r') => some (.str s, r')
          | Option.none => Option.none)
       else if c = '[' then
         (match skipWs r with
          | c2 :: r2 =>
            if c2 = ']' then some (.list [], r2)
            else
              (match parseItems f r with
               | some (xs, r') => some (.list xs, r')
               | Option.none => Option.none)
          | [] => Option.none)
       else if c = '{' then
         (match skipWs r with
          | c2 :: r2 =>
            if c2 = '}' then some (.dict [], r2)
            else
              (match parseMembers f r with
               | some (kvs, r') =>
                 some (.dict (kvs.foldl (fun d p => dictInsert d p.1 p.2) []), r')
               | Option.none => Option.none)
          | [] => Option.none)
       else parseNumber (c :: r))

/-- Parse the elements of a nonempty JSON array, including its closing `]`. -/
def parseItems : Nat → List Char → Option (List PyVal × List Char)
  | 0, _ => Option.none
  | f + 1, l =>
    (match parseValue f l with
     | some (v, r) =>
       (match skipWs r with
        | c :: r2 =>
          if c = ',' then
            (match parseItems f r2 with
             | some (vs, r') => some (v :: vs, r')
             | Option.none => Option.none)
          else if c = ']' then some ([v], r2)
          else Option.none
        | [] => Option.none)
     | Option.none => Option.none)

/-- Parse the members of a nonempty JSON object, including its closing `}`. -/
def parseMembers : Nat → List Char → Option (List (Str × PyVal) × List Char)
  | 0, _ => Option.none
  | f + 1, l =>
    (match skipWs l with
     | c :: r =>
       if c = '"' then
         (match parseJStr r with
          | some (k, r1) =>
            (match skipWs r1 with
             | c2 :: r2 =>
               if c2 = ':' then
                 (match parseValue f r2 with
                  | some (v, r3) =>
                    (match skipWs r3 with
                     | c3 :: r4 =>
                       if c3 = ',' then
                         (match parseMembers f r4 with
                          | some (kvs, r') => some ((k, v) :: kvs, r')
                          | Option.none => Option.none)
                       else if c3 = '}' then some ([(k, v)], r4)
                       else Option.none
                     | [] => Option.none)
                  | Option.none => Option.none)
               else Option.none
             | [] => Option.none)
          | Option.none => Option.none)
       else Option.none
     | [] => Option.none)

end

/-- Python's `json.loads`: parse one value, allowing surrounding whitespace,
and reject trailing input. -/
def loads (s : Str) : Option PyVal :=
  match parseValue (s.length + 1) s with
  | some (v, rest) => if skipWs rest = [] then some v else Option.none
  | Option.none => Option.none

/-- The remaining input cannot extend a just-parsed number. -/
def numStop : List Char → Prop
  | [] => True
  | c :: _ => isDigitChar c = false ∧ c ≠ 'e' ∧ c ≠ 'E' ∧ c ≠ '.'

/-- The UnQLite mapping visible to the store: an association list of raw
key/value text pairs in insertion order (UnQLite keys are unique, so
well-formed states have `Nodup` keys). -/
abbrev DB := List (Str × Str)

/-- `db[k]` lookup in the backing mapping. -/
def dbGet : DB → Str → Option Str
  | [], _ => Option.none
  | (k', v) :: rest, k => if k' = k then some v else dbGet rest k

/-- Python's `k in db` membership test. -/
def dbHas (db : DB) (k : Str) : Bool := (dbGet db k).isSome

/-- `db[k] = v` assignment: overwrite in place, or append a new entry. -/
def dbSet : DB → Str → Str → DB
  | [], k, v => [(k, v)]
  | (k', v') :: rest, k, v => if k' = k then (k, v) :: rest else (k', v') :: dbSet rest k v

/-- `del db[k]`: remove the entry with that key. -/
def dbDel : DB → Str → DB
  | [], _ => []
  | (k', v') :: rest, k => if k' = k then dbDel rest k else (k', v') :: dbDel rest k

/-- The namespace marker `PREFS_PREFIX = "prefs:"` of `preferences.py`. -/
def PREFS_NS : Str := "prefs:".data

/-- `Preferences._k`: the namespaced key. -/
def pk (key : Str) : Str := PREFS_NS ++ key

namespace Preferences

/-- `Preferences.set`: `self._db[self._k(key)] = json.dumps(value)`.  Python
evaluates `json.dumps(value)` before the store assignment runs, so a
serialization `TypeError` (the `Except.error` case) propagates with no write
performed and the mapping left as the caller held it. -/
def set (db : DB) (key : Str) (value : PyVal) : Except Unit DB :=
  match dumps value with
  | some s => Except.ok (dbSet db (pk key) s)
  | Option.none => Except.error ()

/-- The `try: json.loads \ except: raw` step of `Preferences.get`: UnQLite
returns the stored value as bytes, so the fallback yields `bytes`. -/
def decodeStored (s : Str) : PyVal :=
  match loads s with
  | some v => v
  | Option.none => PyVal.bytes s

end Preferences

/-- Python's `value is None` test. -/
def isNone : PyVal → Bool
  | PyVal.none => true
  | _ => false

/-- The coercion targets `type_` ranges over in the store's usage. -/
inductive PyType where
  | bool
  | int
  | float

/-- Whitespace stripped by Python's `str.strip` (ASCII portion). -/
def pyIsSpace (c : Char) : Bool :=
  c.toNat = 32 || c.toNat = 9 || c.toNat = 10 || c.toNat = 13 || c.toNat = 11 || c.toNat = 12

/-- `str.strip()`. -/
def pyStrip (s : Str) : Str :=
  ((s.dropWhile pyIsSpace).reverse.dropWhile pyIsSpace).reverse

/-- `str.lower()` (ASCII portion, all the accepted table needs). -/
def pyLower (s : Str) : Str := s.map Char.toLower

/-- The accepted truthy strings `("1", "true", "yes", "y", "on")`. -/
def truthyStrs : List Str :=
  ["1".data, "true".data, "yes".data, "y".data, "on".data]

/-- The accepted falsy strings `("0", "false", "no", "n", "off")`. -/
def falsyStrs : List Str :=
  ["0".data, "false".data, "no".data, "n".data, "off".data]

/-- Python's `bool(value)` — never raises. -/
def pyTruthy : PyVal → Bool
  | PyVal.none => false
  | PyVal.bool b => b
  | PyVal.int n => decide (n ≠ 0)
  | PyVal.float m _ => decide (m ≠ 0)
  | PyVal.str s => decide (s ≠ [])
  | PyVal.bytes s => decide (s ≠ [])
  | PyVal.list xs => !xs.isEmpty
  | PyVal.dict kvs => !kvs.isEmpty
  | PyVal.obj => true

/-- Python's `int(s)` on text: surrounding whitespace allowed, optional sign,
then a nonempty digit run (digit-group underscores are not modelled; the
store's contract does not depend on them). -/
def pyIntOfStr (s : Str) : Option Int :=
  match pyStrip s with
  | [] => Option.none
  | c :: r =>
    if c = '-' then
      if r ≠ [] ∧ r.all isDigitChar then some (-(digitsVal r 0 : Int)) else Option.none
    else if c = '+' then
      if r ≠ [] ∧ r.all isDigitChar then some ((digitsVal r 0 : Int)) else Option.none
    else
      if (c :: r).all isDigitChar then some ((digitsVal (c :: r) 0 : Int)) else Option.none

/-- Python's `float(s)` on text, producing the decimal significand/exponent
pair of the written number (`inf`/`nan` spellings are not modelled). -/
def pyFloatOfStr (s : Str) : Option (Int × Int) :=
  let t := pyStrip s
  let signed : Bool × List Char :=
    match t with
    | '-' :: r => (true, r)
    | '+' :: r => (false, r)
    | _ => (false, t)
  let a := signed.2.takeWhile isDigitChar
  let r1 := signed.2.dropWhile isDigitChar
  let core : Option (Nat × Int × List Char) :=
    match r1 with
    | '.' :: r2 =>
      let b := r2.takeWhile isDigitChar
      let r3 := r2.dropWhile isDigitChar
      if a.length + b.length = 0 then Option.none
      else some (digitsVal (a ++ b) 0, -(b.length : Int), r3)
    | _ =>
      if a.length = 0 then Option.none else some (digitsVal a 0, 0, r1)
  match core with
  | Option.none => Option.none
  | some (mag, e0, r3) =>
    (match r3 with
     | [] => some (applySign signed.1 mag, e0)
     | c :: r4 =>
       if c = 'e' ∨ c = 'E' then
         (match r4 with
          | '-' :: r5 =>
            if r5 ≠ [] ∧ r5.all isDigitChar then
              some (applySign signed.1 mag, e0 - (digitsVal r5 0 : Int))
            else Option.none
          | '+' :: r5 =>
            if r5 ≠ [] ∧ r5.all isDigitChar then
              some (applySign signed.1 mag, e0 + (digitsVal r5 0 : Int))
            else Option.none
          | r5 =>
            if r5 ≠ [] ∧ r5.all isDigitChar then
              some (applySign signed.1 mag, e0 + (digitsVal r5 0 : Int))
            else Option.none)
       else Option.none)

/-- Python's `int()` of a float truncates toward zero. -/
def floatTrunc (m e : Int) : Int :=
  if 0 ≤ e then m * 10 ^ e.toNat else Int.tdiv m (10 ^ (-e).toNat)

/-- Python's `type_(value)` construction for the modelled targets:
`Option.none` is a raised conversion error. -/
def castTo : PyType → PyVal → Option PyVal
  | PyType.bool, v => some (PyVal.bool (pyTruthy v))
  | PyType.int, v =>
    (match v with
     | PyVal.bool b => some (PyVal.int (if b then 1 else 0))
     | PyVal.int n => some (PyVal.int n)
     | PyVal.float m e => some (PyVal.int (floatTrunc m e))
     | PyVal.str s => (pyIntOfStr s).map PyVal.int
     | PyVal.bytes s => (pyIntOfStr s).map PyVal.int
     | _ => Option.none)
  | PyType.float, v =>
    (match v with
     | PyVal.bool b => some (PyVal.float (if b then 1 else 0) 0)
     | PyVal.int n => some (PyVal.float n 0)
     | PyVal.float m e => some (PyVal.float m e)
     | PyVal.str s => (pyFloatOfStr s).map (fun p => PyVal.float p.1 p.2)
     | PyVal.bytes s => (pyFloatOfStr s).map (fun p => PyVal.float p.1 p.2)
     | _ => Option.none)

/-- The `return type_(value)` line with its `except: return default`. -/
def coerceCast (t : PyType) (value default : PyVal) : PyVal :=
  match castTo t value with
  | some r => r
  | Option.none => default

/-- The coercion block of `Preferences.get`: the special string-to-bool
table, then generic construction, with `default` on error. -/
def coerce (t : PyType) (value default : PyVal) : PyVal :=
  match t, value with
  | PyType.bool, PyVal.str s =>
    if truthyStrs.contains (pyLower (pyStrip s)) then PyVal.bool true
    else if falsyStrs.contains (pyLower (pyStrip s)) then PyVal.bool false
    else coerceCast PyType.bool (PyVal.str s) default
  | _, _ => coerceCast t value default

namespace Preferences

/-- `Preferences.get(key, default, type_)`. -/
def get (db : DB) (key : Str) (default : PyVal) (type_ : Option PyType) : PyVal :=
  match dbGet db (pk key) with
  | Option.none => default
  | some stored =>
    let value := decodeStored stored
    (match type_ with
     | Option.none => value
     | some t => if isNone value then value else coerce t value default)

/-- `Preferences.delete`, returning the result and the mapping after. -/
def delete (db : DB) (key : Str) : Bool × DB :=
  if dbHas db (pk key) then (true, dbDel db (pk key)) else (false, db)

/-- `Preferences.exists`. -/
def exists' (db : DB) (key : Str) : Bool := dbHas db (pk key)

/-- The fallback decoding of `Preferences.all`: the value was decoded from
bytes to text (`errors="ignore"`) before `json.loads`, so the fallback
yields `str`, not `bytes`. -/
def decodeAll (s : Str) : PyVal :=
  match loads s with
  | some v => v
  | Option.none => PyVal.str s

/-- The accumulation loop of `Preferences.all` over the mapping's items. -/
def allGo : DB → PyDict → PyDict
  | [], out => out
  | (k, v) :: rest, out =>
    allGo rest
      (if List.isPrefixOf PREFS_NS k then
        dictInsert out (k.drop PREFS_NS.length) (decodeAll v)
      else out)

/-- `Preferences.all`. -/
def all (db : DB) : PyDict := allGo db []

/-- `Preferences.clear`: collect the namespaced keys, delete each, return
how many were collected, with the mapping after. -/
def clear (db : DB) : Nat × DB :=
  let toDelete := (db.map Prod.fst).filter (fun k => List.isPrefixOf PREFS_NS k)
  (toDelete.length, toDelete.foldl dbDel db)

end Preferences

/-- Directories existing on the filesystem. -/
abbrev FS := List Str

/-- `APP_NAME = "Loom"` of `paths.py`. -/
def APP_NAME : Str := "Loom".data

/-- `os.path.expanduser`: substitute the home directory for a leading `~`. -/
def expanduser (home : Str) : Str → Str
  | '~' :: rest => home ++ rest
  | p => p

/-- `os.makedirs(d, exist_ok=True)`: ensure directory `d` exists. -/
def makedirs (fs : FS) (d : Str) : FS :=
  if fs.contains d then fs else d :: fs

/-- `get_working_dir` of `paths.py`: resolve the application-support
directory and create it. -/
def get_working_dir (home : Str) (fs : FS) : FS × Str :=
  let base_dir := expanduser home ("~/Library/Application Support/".data ++ APP_NAME)
  (makedirs fs base_dir, base_dir)

/-- `get_database_dir` of `paths.py`: join `"db"` onto the working directory.
No `makedirs` call is made on the joined path. -/
def get_database_dir (home : Str) (fs : FS) : FS × Str :=
  let p := get_working_dir home fs
  (p.1, p.2 ++ "/db".data)


/-- A nested sample value exercising null, bool, int, float, Unicode
string, sequence and mapping shapes. -/
def demoVal : PyVal :=
  PyVal.dict
    [("a".data, PyVal.list [PyVal.int 1, PyVal.str "é🚀".data, PyVal.float 314 (-2)]),
     ("b".data, PyVal.none),
     ("c".data, PyVal.bool true)]

/-- Five namespaced entries plus one foreign-namespace entry, the layout of
the spec's clear-count example. -/
def sampleStore : DB :=
  [(pk "a".data, "1".data), (pk "b".data, "2".data), (pk "c".data, "3".data),
   (pk "d".data, "4".data), (pk "e".data, "5".data),
   ("other:key".data, "x".data)]

theorem digitChar_isDigit : ∀ d, d < 10 → isDigitChar (digitChar d) = true := by
  intro d h; interval_cases d <;> decide

theorem digitVal_digitChar : ∀ d, d < 10 → digitVal (digitChar d) = d := by
  intro d h; interval_cases d <;> decide

theorem digitsVal_append (xs ys : List Char) :
    ∀ a, digitsVal (xs ++ ys) a = digitsVal ys (digitsVal xs a) := by
  induction xs with
  | nil => intro a; rfl
  | cons c r ih => intro a; simp only [List.cons_append, digitsVal]; exact ih _

theorem natDigitsGo_zero : ∀ f acc, natDigitsGo f 0 acc = acc := by
  intro f acc; cases f <;> simp [natDigitsGo]

theorem natDigitsGo_spec :
    ∀ f n acc, n ≤ f → 0 < n →
      ∃ ds, natDigitsGo f n acc = ds ++ acc ∧ ds ≠ [] ∧
        (∀ c ∈ ds, isDigitChar c = true) ∧ digitsVal ds 0 = n := by
  intro f
  induction f with
  | zero => intro n acc hle hpos; omega
  | succ f ih =>
    intro n acc hle hpos
    have hne : n ≠ 0 := by omega
    simp only [natDigitsGo, hne, if_false]
    have hdv : digitVal (digitChar (n % 10)) = n % 10 :=
      digitVal_digitChar (n % 10) (by omega)
    by_cases hq : n / 10 = 0
    · have hlt : n < 10 := by omega
      refine ⟨[digitChar (n % 10)], ?_, by simp, ?_, ?_⟩
      · rw [hq, natDigitsGo_zero]; rfl
      · intro c hc; simp at hc; subst hc; exact digitChar_isDigit _ (by omega)
      · simp [digitsVal, hdv]; omega
    · have hq' : n / 10 ≤ f := by
        have := Nat.div_lt_self hpos (by norm_num : (1:Nat) < 10); omega
      obtain ⟨ds, heq, hne', hdig, hval⟩ := ih (n / 10) (digitChar (n % 10) :: acc) hq' (by omega)
      refine ⟨ds ++ [digitChar (n % 10)], by simp [heq], by simp, ?_, ?_⟩
      · intro c hc
        rcases List.mem_append.1 hc with h | h
        · exact hdig c h
        · simp at h; subst h; exact digitChar_isDigit _ (by omega)
      · rw [digitsVal_append, hval]
        simp [digitsVal, hdv]
        omega

theorem natDigits_spec (n : Nat) :
    natDigits n ≠ [] ∧ (∀ c ∈ natDigits n, isDigitChar c = true) ∧
      digitsVal (natDigits n) 0 = n := by
  by_cases h : n = 0
  · subst h; refine ⟨by simp [natDigits], ?_, by simp [natDigits, digitsVal]; rfl⟩
    intro c hc; simp [natDigits] at hc; subst hc; rfl
  · obtain ⟨ds, heq, hne, hdig, hval⟩ :=
      natDigitsGo_spec n n [] (le_refl n) (Nat.pos_of_ne_zero h)
    simp only [natDigits, h, if_false]
    simp only [List.append_nil] at heq
    rw [heq]
    exact ⟨hne, hdig, hval⟩

theorem parseNatAux_spec :
    ∀ ds rest a, (∀ c ∈ ds, isDigitChar c = true) → noDigitHead rest →
      parseNatAux (ds ++ rest) a = (digitsVal ds a, rest) := by
  intro ds
  induction ds with
  | nil =>
    intro rest a _ hrest
    cases rest with
    | nil => rfl
    | cons c r =>
      have hc : isDigitChar c = false := hrest
      simp [parseNatAux, hc, digitsVal]
  | cons c r ih =>
    intro rest a hds hrest
    have hc : isDigitChar c = true := hds c (by simp)
    simp [parseNatAux, hc, digitsVal, ih rest _ (fun x hx => hds x (by simp [hx])) hrest]

theorem parseNat_digits (ds rest : List Char) (hne : ds ≠ [])
    (hdig : ∀ c ∈ ds, isDigitChar c = true) (hrest : noDigitHead rest) :
    parseNat (ds ++ rest) = some (digitsVal ds 0, rest) := by
  cases ds with
  | nil => exact absurd rfl hne
  | cons c r =>
    have hc : isDigitChar c = true := hdig c (by simp)
    simp [parseNat, hc, parseNatAux_spec r rest _ (fun x hx => hdig x (by simp [hx])) hrest,
      digitsVal]

theorem parseNat_natDigits (n : Nat) (rest : List Char) (hrest : noDigitHead rest) :
    parseNat (natDigits n ++ rest) = some (n, rest) := by
  obtain ⟨hne, hdig, hval⟩ := natDigits_spec n
  rw [parseNat_digits _ rest hne hdig hrest, hval]


theorem hexVal_hexDigitChar : ∀ x, x < 16 → hexVal (hexDigitChar x) = some x := by
  intro x h; interval_cases x <;> decide

theorem hex_reassemble (n : Nat) (h : n < 65536) :
    ((n / 4096 % 16 * 16 + n / 256 % 16) * 16 + n / 16 % 16) * 16 + n % 16 = n := by omega

theorem char_toNat_valid (c : Char) :
    c.toNat < 55296 ∨ (57344 ≤ c.toNat ∧ c.toNat < 1114112) := by
  have h := c.valid
  simp only [UInt32.isValidChar, Nat.isValidChar] at h
  have h2 : c.toNat = c.val.toNat := rfl
  omega


theorem hexQuad_hex4 (n : Nat) (h : n < 65536) :
    hexQuad (hexDigitChar (n / 4096 % 16)) (hexDigitChar (n / 256 % 16))
      (hexDigitChar (n / 16 % 16)) (hexDigitChar (n % 16)) = some n := by
  have e1 := hexVal_hexDigitChar (n / 4096 % 16) (Nat.mod_lt _ (by norm_num))
  have e2 := hexVal_hexDigitChar (n / 256 % 16) (Nat.mod_lt _ (by norm_num))
  have e3 := hexVal_hexDigitChar (n / 16 % 16) (Nat.mod_lt _ (by norm_num))
  have e4 := hexVal_hexDigitChar (n % 16) (Nat.mod_lt _ (by norm_num))
  simp only [hexQuad, e1, e2, e3, e4]
  rw [hex_reassemble n h]

theorem charUnits_bmp (c : Char) (h : c.toNat < 65536) : charUnits c = [c.toNat] :=
  if_pos h

theorem charUnits_astral (c : Char) (h : ¬c.toNat < 65536) :
    charUnits c = [55296 + (c.toNat - 65536) / 1024, 56320 + (c.toNat - 65536) % 1024] :=
  if_neg h

theorem parseStrBody_plain (c : Char) (r : List Char) (h1 : c ≠ '"') (h2 : c ≠ '\\') :
    parseStrBody (c :: r) = (parseStrBody r).map (fun p => (c.toNat :: p.1, p.2)) := by
  simp [parseStrBody, h1, h2]

theorem parseStrBody_esc1 (e ec : Char) (t : List Char) (hu : e ≠ 'u')
    (he : escChar1 e = some ec) :
    parseStrBody ('\\' :: e :: t) = (parseStrBody t).map (fun p => (ec.toNat :: p.1, p.2)) := by
  rw [show parseStrBody ('\\' :: e :: t) = parseEscape (e :: t) from rfl]
  simp only [parseEscape]
  rw [if_neg hu, he]

theorem parseStrBody_u (y : List Char) : parseStrBody ('\\' :: 'u' :: y) = parseU y := by
  rw [show parseStrBody ('\\' :: 'u' :: y) = parseEscape ('u' :: y) from rfl]
  simp only [parseEscape]
  exact if_pos trivial

theorem parseU_cons (a b c d : Char) (y : List Char) :
    parseU (a :: b :: c :: d :: y) =
      (match hexQuad a b c d with
       | some k => (parseStrBody y).map (fun (p : List Nat × List Char) => (k :: p.1, p.2))
       | Option.none => Option.none) := rfl

theorem parseU_quad (a b c d : Char) (y : List Char) (n : Nat)
    (hq : hexQuad a b c d = some n) :
    parseU (a :: b :: c :: d :: y) = (parseStrBody y).map (fun p => (n :: p.1, p.2)) := by
  rw [parseU_cons, hq]

theorem unitsToChars_ok (n : Nat) (rest : List Nat)
    (hs : ¬(55296 ≤ n ∧ n < 56320)) (h : n < 55296 ∨ (57344 ≤ n ∧ n < 1114112)) :
    unitsToChars (n :: rest) = (unitsToChars rest).map (fun s => Char.ofNat n :: s) := by
  show (if 55296 ≤ n ∧ n < 56320 then surrPair n rest
        else if n < 55296 ∨ (57344 ≤ n ∧ n < 1114112) then
          (unitsToChars rest).map (fun s => Char.ofNat n :: s)
        else Option.none) = _
  rw [if_neg hs, if_pos h]

theorem unitsToChars_surr (n m : Nat) (rest : List Nat)
    (hn : 55296 ≤ n ∧ n < 56320) (hm : 56320 ≤ m ∧ m < 57344) :
    unitsToChars (n :: m :: rest) =
      (unitsToChars rest).map
        (fun s => Char.ofNat (65536 + (n - 55296) * 1024 + (m - 56320)) :: s) := by
  show (if 55296 ≤ n ∧ n < 56320 then surrPair n (m :: rest)
        else if n < 55296 ∨ (57344 ≤ n ∧ n < 1114112) then
          (unitsToChars (m :: rest)).map (fun s => Char.ofNat n :: s)
        else Option.none) = _
  rw [if_pos hn]
  show (if 56320 ≤ m ∧ m < 57344 then
          (unitsToChars rest).map
            (fun s => Char.ofNat (65536 + (n - 55296) * 1024 + (m - 56320)) :: s)
        else Option.none) = _
  rw [if_pos hm]

theorem parseStrBody_escBody :
    ∀ (s : Str) (rest : List Char),
      parseStrBody (escBody s ++ '"' :: rest) = some (strUnits s, rest) := by
  intro s
  induction s with
  | nil => intro rest; rfl
  | cons c s ih =>
    intro rest
    show parseStrBody ((escapeChar c ++ escBody s) ++ '"' :: rest) = _
    rw [List.append_assoc]
    by_cases h1 : c = '"'
    · subst h1
      rw [show escapeChar '"' ++ (escBody s ++ '"' :: rest) =
            '\\' :: '"' :: (escBody s ++ '"' :: rest) from rfl]
      rw [parseStrBody_esc1 '"' '"' _ (by decide) rfl, ih rest]
      rfl
    · by_cases h2 : c = '\\'
      · subst h2
        rw [show escapeChar '\\' ++ (escBody s ++ '"' :: rest) =
              '\\' :: '\\' :: (escBody s ++ '"' :: rest) from rfl]
        rw [parseStrBody_esc1 '\\' '\\' _ (by decide) rfl, ih rest]
        rfl
      · by_cases h3 : c = '\n'
        · subst h3
          rw [show escapeChar '\n' ++ (escBody s ++ '"' :: rest) =
                '\\' :: 'n' :: (escBody s ++ '"' :: rest) from rfl]
          rw [parseStrBody_esc1 'n' '\n' _ (by decide) rfl, ih rest]
          rfl
        · by_cases h4 : c = '\r'
          · subst h4
            rw [show escapeChar '\r' ++ (escBody s ++ '"' :: rest) =
                  '\\' :: 'r' :: (escBody s ++ '"' :: rest) from rfl]
            rw [parseStrBody_esc1 'r' '\r' _ (by decide) rfl, ih rest]
            rfl
          · by_cases h5 : c = '\t'
            · subst h5
              rw [show escapeChar '\t' ++ (escBody s ++ '"' :: rest) =
                    '\\' :: 't' :: (escBody s ++ '"' :: rest) from rfl]
              rw [parseStrBody_esc1 't' '\t' _ (by decide) rfl, ih rest]
              rfl
            · by_cases h6 : c.toNat = 8
              · have heb : escapeChar c = ['\\', 'b'] := by
                  simp [escapeChar, h1, h2, h3, h4, h5, h6]
                rw [heb]
                rw [show (['\\', 'b'] : List Char) ++ (escBody s ++ '"' :: rest) =
                      '\\' :: 'b' :: (escBody s ++ '"' :: rest) from rfl]
                rw [parseStrBody_esc1 'b' (Char.ofNat 8) _ (by decide) rfl, ih rest]
                rw [show strUnits (c :: s) = charUnits c ++ strUnits s from rfl,
                  charUnits_bmp c (by omega), h6]
                rfl
              · by_cases h7 : c.toNat = 12
                · have heb : escapeChar c = ['\\', 'f'] := by
                    simp [escapeChar, h1, h2, h3, h4, h5, h6, h7]
                  rw [heb]
                  rw [show (['\\', 'f'] : List Char) ++ (escBody s ++ '"' :: rest) =
                        '\\' :: 'f' :: (escBody s ++ '"' :: rest) from rfl]
                  rw [parseStrBody_esc1 'f' (Char.ofNat 12) _ (by decide) rfl, ih rest]
                  rw [show strUnits (c :: s) = charUnits c ++ strUnits s from rfl,
                    charUnits_bmp c (by omega), h7]
                  rfl
                · by_cases h8 : 32 ≤ c.toNat ∧ c.toNat ≤ 126
                  · have heb : escapeChar c = [c] := by
                      simp [escapeChar, h1, h2, h3, h4, h5, h6, h7, h8]
                    rw [heb]
                    rw [show ([c] : List Char) ++ (escBody s ++ '"' :: rest) =
                          c :: (escBody s ++ '"' :: rest) from rfl]
                    rw [parseStrBody_plain c _ h1 h2, ih rest]
                    rw [show strUnits (c :: s) = charUnits c ++ strUnits s from rfl,
                      charUnits_bmp c (by omega)]
                    rfl
                  · by_cases h9 : c.toNat < 65536
                    · have heb : escapeChar c = '\\' :: 'u' :: hex4 c.toNat := by
                        simp [escapeChar, h1, h2, h3, h4, h5, h6, h7, h8, h9]
                      rw [heb]
                      simp only [hex4, List.cons_append, List.nil_append]
                      rw [parseStrBody_u,
                        parseU_quad _ _ _ _ _ _ (hexQuad_hex4 c.toNat h9), ih rest]
                      rw [show strUnits (c :: s) = charUnits c ++ strUnits s from rfl,
                        charUnits_bmp c h9]
                      rfl
                    · have heb : escapeChar c =
                          ('\\' :: 'u' :: hex4 (55296 + (c.toNat - 65536) / 1024)) ++
                            ('\\' :: 'u' :: hex4 (56320 + (c.toNat - 65536) % 1024)) := by
                        simp [escapeChar, h1, h2, h3, h4, h5, h6, h7, h8, h9]
                      have hv := char_toNat_valid c
                      have hhi : 55296 + (c.toNat - 65536) / 1024 < 65536 := by omega
                      have hlo : 56320 + (c.toNat - 65536) % 1024 < 65536 := by omega
                      rw [heb, List.append_assoc]
                      simp only [hex4, List.cons_append, List.nil_append]
                      rw [parseStrBody_u, parseU_quad _ _ _ _ _ _ (hexQuad_hex4 _ hhi)]
                      rw [parseStrBody_u, parseU_quad _ _ _ _ _ _ (hexQuad_hex4 _ hlo)]
                      rw [ih rest]
                      rw [show strUnits (c :: s) = charUnits c ++ strUnits s from rfl,
                        charUnits_astral c h9]
                      rfl

theorem unitsToChars_strUnits : ∀ s : Str, unitsToChars (strUnits s) = some s := by
  intro s
  induction s with
  | nil => rfl
  | cons c s ih =>
    show unitsToChars (charUnits c ++ strUnits s) = _
    have hv := char_toNat_valid c
    by_cases h : c.toNat < 65536
    · rw [charUnits_bmp c h]
      rw [show ([c.toNat] : List Nat) ++ strUnits s = c.toNat :: strUnits s from rfl]
      rw [unitsToChars_ok c.toNat _ (by omega) (by omega), ih, Char.ofNat_toNat]
      rfl
    · rw [charUnits_astral c h]
      rw [show ([55296 + (c.toNat - 65536) / 1024, 56320 + (c.toNat - 65536) % 1024] :
            List Nat) ++ strUnits s =
          (55296 + (c.toNat - 65536) / 1024) :: (56320 + (c.toNat - 65536) % 1024) ::
            strUnits s from rfl]
      rw [unitsToChars_surr _ _ _ (by omega) (by omega), ih]
      rw [show 65536 + (55296 + (c.toNat - 65536) / 1024 - 55296) * 1024 +
            (56320 + (c.toNat - 65536) % 1024 - 56320) = c.toNat by omega]
      rw [Char.ofNat_toNat]
      rfl

theorem parseJStr_escBody (s : Str) (rest : List Char) :
    parseJStr (escBody s ++ '"' :: rest) = some (s, rest) := by
  simp only [parseJStr, parseStrBody_escBody s rest, unitsToChars_strUnits s]

theorem numStop_noDigitHead : ∀ l, numStop l → noDigitHead l := by
  intro l h
  cases l with
  | nil => trivial
  | cons c r => exact h.1

theorem isDigitChar_iff (c : Char) : isDigitChar c = true ↔ 48 ≤ c.toNat ∧ c.toNat ≤ 57 := by
  simp [isDigitChar]

theorem digit_facts (c : Char) (h : isDigitChar c = true) :
    isWsChar c = false ∧ c ≠ '-' ∧ c ≠ '+' ∧ c ≠ 'n' ∧ c ≠ 't' ∧ c ≠ 'f' ∧ c ≠ '"' ∧
      c ≠ '[' ∧ c ≠ '{' ∧ c ≠ ']' ∧ c ≠ '}' ∧ c ≠ ',' := by
  have hb := (isDigitChar_iff c).1 h
  refine ⟨?_, ?_, ?_, ?_, ?_, ?_, ?_, ?_, ?_, ?_, ?_, ?_⟩
  · simp only [isWsChar]; simp only [Bool.or_eq_false_iff, decide_eq_false_iff_not]; omega
  all_goals intro heq; subst heq; exact absurd hb (by decide)

theorem intDigits_nonneg (n : Int) (h : 0 ≤ n) : intDigits n = natDigits n.toNat :=
  if_neg (by omega)

theorem intDigits_neg (n : Int) (h : n < 0) : intDigits n = '-' :: natDigits n.natAbs :=
  if_pos h

theorem applySign_natAbs (n : Int) : applySign (decide (n < 0)) n.natAbs = n := by
  by_cases h : n < 0
  · rw [decide_eq_true h]
    show -((n.natAbs : Int)) = n
    omega
  · rw [decide_eq_false h]
    show ((n.natAbs : Int)) = n
    omega

theorem parseAfterInt_stop (neg : Bool) (ip : Nat) (rest : List Char) (h : numStop rest) :
    parseAfterInt neg ip rest = some (.int (applySign neg ip), rest) := by
  cases rest with
  | nil => rfl
  | cons c r2 =>
    obtain ⟨_, he, hE, hdot⟩ := h
    simp only [parseAfterInt]
    rw [if_neg hdot, if_neg (not_or.mpr ⟨he, hE⟩)]

theorem parseAfterInt_exp (neg : Bool) (ip : Nat) (y : List Char) :
    parseAfterInt neg ip ('e' :: y) = parseExpPart (applySign neg ip) 0 y := rfl

theorem parseExpPart_digits (sig : Int) (e0 : Int) (k : Nat) (rest : List Char)
    (h : noDigitHead rest) :
    parseExpPart sig e0 (natDigits k ++ rest) = some (.float sig (e0 + (k : Int)), rest) := by
  obtain ⟨hne, hdig, hval⟩ := natDigits_spec k
  cases hcons : natDigits k with
  | nil => exact absurd hcons hne
  | cons c ds =>
    have hc : isDigitChar c = true := hdig c (by rw [hcons]; simp)
    obtain ⟨_, hm, hp, _⟩ := digit_facts c hc
    have hpn : parseNat ((c :: ds) ++ rest) = some (digitsVal (c :: ds) 0, rest) :=
      parseNat_digits (c :: ds) rest (by simp) (by rw [← hcons]; exact hdig) h
    have hvl : digitsVal (c :: ds) 0 = k := by rw [← hcons]; exact hval
    simp only [List.cons_append]
    simp only [parseExpPart]
    rw [if_neg hm, if_neg hp]
    rw [show (c :: (ds ++ rest) : List Char) = (c :: ds) ++ rest from rfl, hpn, hvl]

theorem parseExpPart_int (sig : Int) (e0 : Int) (e : Int) (rest : List Char)
    (h : noDigitHead rest) :
    parseExpPart sig e0 (intDigits e ++ rest) = some (.float sig (e0 + e), rest) := by
  by_cases he : e < 0
  · rw [intDigits_neg e he, List.cons_append]
    rw [show parseExpPart sig e0 ('-' :: (natDigits e.natAbs ++ rest)) =
          (match parseNat (natDigits e.natAbs ++ rest) with
           | some (ex, r2) => some (PyVal.float sig (e0 - (ex : Int)), r2)
           | Option.none => Option.none) from rfl]
    rw [parseNat_natDigits _ _ h]
    show some (PyVal.float sig (e0 - (e.natAbs : Int)), rest) = _
    rw [show e0 - (e.natAbs : Int) = e0 + e by omega]
  · rw [intDigits_nonneg e (by omega), parseExpPart_digits sig e0 e.toNat rest h]
    rw [show ((e.toNat : Int) : Int) = e by omega]

theorem parseNumber_intDigits (n : Int) (t : List Char) (h : noDigitHead t) :
    parseNumber (intDigits n ++ t) = parseAfterInt (decide (n < 0)) n.natAbs t := by
  by_cases hn : n < 0
  · rw [intDigits_neg n hn, List.cons_append]
    rw [show parseNumber ('-' :: (natDigits n.natAbs ++ t)) =
          (match parseNat (natDigits n.natAbs ++ t) with
           | some (ip, r1) => parseAfterInt true ip r1
           | Option.none => Option.none) from rfl]
    rw [parseNat_natDigits _ _ h, decide_eq_true hn]
  · rw [intDigits_nonneg n (by omega)]
    obtain ⟨hne, hdig, hval⟩ := natDigits_spec n.toNat
    cases hcons : natDigits n.toNat with
    | nil => exact absurd hcons hne
    | cons c ds =>
      have hc : isDigitChar c = true := hdig c (by rw [hcons]; simp)
      obtain ⟨_, hm, _⟩ := digit_facts c hc
      have hpn : parseNat ((c :: ds) ++ t) = some (digitsVal (c :: ds) 0, t) :=
        parseNat_digits (c :: ds) t (by simp) (by rw [← hcons]; exact hdig) h
      have hvl : digitsVal (c :: ds) 0 = n.toNat := by rw [← hcons]; exact hval
      simp only [List.cons_append]
      simp only [parseNumber]
      rw [if_neg hm]
      rw [show (c :: (ds ++ t) : List Char) = (c :: ds) ++ t from rfl, hpn, hvl]
      rw [show n.toNat = n.natAbs by omega]
      simp [hn]

theorem parseNumber_int (n : Int) (rest : List Char) (h : numStop rest) :
    parseNumber (intDigits n ++ rest) = some (.int n, rest) := by
  rw [parseNumber_intDigits n rest (numStop_noDigitHead rest h),
    parseAfterInt_stop _ _ _ h, applySign_natAbs]

theorem parseNumber_float (m e : Int) (rest : List Char) (h : numStop rest) :
    parseNumber ((intDigits m ++ 'e' :: intDigits e) ++ rest) = some (.float m e, rest) := by
  rw [List.append_assoc, List.cons_append]
  rw [parseNumber_intDigits m ('e' :: (intDigits e ++ rest))
    (show isDigitChar 'e' = false by decide)]
  rw [parseAfterInt_exp, applySign_natAbs,
    parseExpPart_int m 0 e rest (numStop_noDigitHead rest h)]
  rw [show (0 : Int) + e = e by omega]


theorem dumps_head (v : PyVal) (s : List Char) (h : dumps v = some s) :
    ∃ c r, s = c :: r ∧ isWsChar c = false ∧ c ≠ ']' ∧ c ≠ '}' ∧ c ≠ ',' := by
  cases v with
  | none =>
    have hs : s = "null".data := by
      have : some "null".data = some s := h
      exact (Option.some.inj this).symm
    subst hs
    exact ⟨'n', _, rfl, by decide, by decide, by decide, by decide⟩
  | bool b =>
    cases b with
    | true =>
      have hs : s = "true".data := (Option.some.inj h).symm
      subst hs
      exact ⟨'t', _, rfl, by decide, by decide, by decide, by decide⟩
    | false =>
      have hs : s = "false".data := (Option.some.inj h).symm
      subst hs
      exact ⟨'f', _, rfl, by decide, by decide, by decide, by decide⟩
  | int n =>
    have hs : s = intDigits n := (Option.some.inj h).symm
    subst hs
    by_cases hn : n < 0
    · rw [intDigits_neg n hn]
      exact ⟨'-', _, rfl, by decide, by decide, by decide, by decide⟩
    · rw [intDigits_nonneg n (by omega)]
      obtain ⟨hne, hdig, _⟩ := natDigits_spec n.toNat
      cases hcons : natDigits n.toNat with
      | nil => exact absurd hcons hne
      | cons c ds =>
        have hc : isDigitChar c = true := hdig c (by rw [hcons]; simp)
        obtain ⟨hws, _, _, _, _, _, _, _, _, hbr, hbc, hcm⟩ := digit_facts c hc
        exact ⟨c, ds, rfl, hws, hbr, hbc, hcm⟩
  | float m e =>
    have hs : s = intDigits m ++ 'e' :: intDigits e := (Option.some.inj h).symm
    subst hs
    by_cases hn : m < 0
    · rw [intDigits_neg m hn, List.cons_append]
      exact ⟨'-', _, rfl, by decide, by decide, by decide, by decide⟩
    · rw [intDigits_nonneg m (by omega)]
      obtain ⟨hne, hdig, _⟩ := natDigits_spec m.toNat
      cases hcons : natDigits m.toNat with
      | nil => exact absurd hcons hne
      | cons c ds =>
        have hc : isDigitChar c = true := hdig c (by rw [hcons]; simp)
        obtain ⟨hws, _, _, _, _, _, _, _, _, hbr, hbc, hcm⟩ := digit_facts c hc
        exact ⟨c, ds ++ 'e' :: intDigits e, by simp, hws, hbr, hbc, hcm⟩
  | str s0 =>
    have hs : s = encodeStr s0 := (Option.some.inj h).symm
    subst hs
    exact ⟨'"', _, rfl, by decide, by decide, by decide, by decide⟩
  | bytes b => exact absurd h (by simp [dumps])
  | obj => exact absurd h (by simp [dumps])
  | list xs =>
    have hb : dumps (.list xs) =
        (dumpsList xs).map (fun parts => '[' :: (sepParts parts ++ [']'])) := rfl
    rw [hb] at h
    rcases Option.map_eq_some'.1 h with ⟨parts, _, hs⟩
    exact ⟨'[', _, hs.symm, by decide, by decide, by decide, by decide⟩
  | dict kvs =>
    have hb : dumps (.dict kvs) =
        (dumpsDict kvs).map (fun parts => '{' :: (sepParts parts ++ ['}'])) := rfl
    rw [hb] at h
    rcases Option.map_eq_some'.1 h with ⟨parts, _, hs⟩
    exact ⟨'{', _, hs.symm, by decide, by decide, by decide, by decide⟩

theorem dumpsList_cons_inv (v : PyVal) (vs : List PyVal) (parts : List (List Char))
    (h : dumpsList (v :: vs) = some parts) :
    ∃ d ds, dumps v = some d ∧ dumpsList vs = some ds ∧ parts = d :: ds := by
  have hb : dumpsList (v :: vs) =
      (match dumps v, dumpsList vs with
       | some d, some ds => some (d :: ds)
       | _, _ => Option.none) := rfl
  rw [hb] at h
  cases hdum : dumps v with
  | none => rw [hdum] at h; cases hdl : dumpsList vs <;> rw [hdl] at h <;> cases h
  | some d =>
    rw [hdum] at h
    cases hdl : dumpsList vs with
    | none => rw [hdl] at h; cases h
    | some ds =>
      rw [hdl] at h
      exact ⟨d, ds, rfl, rfl, (Option.some.inj h).symm⟩

theorem dumpsDict_cons_inv (k : Str) (v : PyVal) (kvs : List (Str × PyVal))
    (parts : List (List Char)) (h : dumpsDict ((k, v) :: kvs) = some parts) :
    ∃ d ds, dumps v = some d ∧ dumpsDict kvs = some ds ∧
      parts = (encodeStr k ++ ':' :: ' ' :: d) :: ds := by
  have hb : dumpsDict ((k, v) :: kvs) =
      (match dumps v, dumpsDict kvs with
       | some d, some ds => some ((encodeStr k ++ ':' :: ' ' :: d) :: ds)
       | _, _ => Option.none) := rfl
  rw [hb] at h
  cases hdum : dumps v with
  | none => rw [hdum] at h; cases hdl : dumpsDict kvs <;> rw [hdl] at h <;> cases h
  | some d =>
    rw [hdum] at h
    cases hdl : dumpsDict kvs with
    | none => rw [hdl] at h; cases h
    | some ds =>
      rw [hdl] at h
      exact ⟨d, ds, rfl, rfl, (Option.some.inj h).symm⟩

theorem dumps_list_inv (xs : List PyVal) (s : List Char) (h : dumps (.list xs) = some s) :
    ∃ parts, dumpsList xs = some parts ∧ s = '[' :: (sepParts parts ++ [']']) := by
  have hb : dumps (.list xs) =
      (dumpsList xs).map (fun parts => '[' :: (sepParts parts ++ [']'])) := rfl
  rw [hb] at h
  rcases Option.map_eq_some'.1 h with ⟨parts, h1, h2⟩
  exact ⟨parts, h1, h2.symm⟩

theorem dumps_dict_inv (kvs : List (Str × PyVal)) (s : List Char)
    (h : dumps (.dict kvs) = some s) :
    ∃ parts, dumpsDict kvs = some parts ∧ s = '{' :: (sepParts parts ++ ['}']) := by
  have hb : dumps (.dict kvs) =
      (dumpsDict kvs).map (fun parts => '{' :: (sepParts parts ++ ['}'])) := rfl
  rw [hb] at h
  rcases Option.map_eq_some'.1 h with ⟨parts, h1, h2⟩
  exact ⟨parts, h1, h2.symm⟩

theorem skipWs_cons_nws (c : Char) (r : List Char) (h : isWsChar c = false) :
    skipWs (c :: r) = c :: r := by
  simp [skipWs, h]

theorem sepParts_cons (d1 d2 : List Char) (ds : List (List Char)) :
    sepParts (d1 :: d2 :: ds) = d1 ++ ',' :: ' ' :: sepParts (d2 :: ds) := rfl

theorem foldl_dictInsert_fresh :
    ∀ (kvs : List (Str × PyVal)) (acc : PyDict),
      (kvs.map Prod.fst).Nodup →
      (∀ k, k ∈ kvs.map Prod.fst → k ∉ acc.map Prod.fst) →
      kvs.foldl (fun d p => dictInsert d p.1 p.2) acc = acc ++ kvs := by
  intro kvs
  induction kvs with
  | nil => intro acc _ _; simp
  | cons p rest ih =>
    intro acc hnd hdisj
    obtain ⟨k, v⟩ := p
    have hcons : (k :: rest.map Prod.fst).Nodup := by simpa using hnd
    have hknr : k ∉ rest.map Prod.fst := (List.nodup_cons.1 hcons).1
    have hndr : (rest.map Prod.fst).Nodup := (List.nodup_cons.1 hcons).2
    simp only [List.foldl_cons]
    have hk : k ∉ acc.map Prod.fst := hdisj k (by simp)
    rw [show dictInsert acc k v = acc ++ [(k, v)] from if_neg hk]
    have hdisj2 : ∀ k', k' ∈ rest.map Prod.fst → k' ∉ (acc ++ [(k, v)]).map Prod.fst := by
      intro k' hk'
      have h1 : k' ∉ acc.map Prod.fst := hdisj k' (by simp [hk'])
      have h2 : k' ≠ k := fun heq => hknr (heq ▸ hk')
      simp [h1, h2]
    rw [ih (acc ++ [(k, v)]) hndr hdisj2]
    simp

theorem foldl_dictInsert_eq (kvs : List (Str × PyVal))
    (h : (kvs.map Prod.fst).Nodup) :
    kvs.foldl (fun d p => dictInsert d p.1 p.2) [] = kvs := by
  simpa using foldl_dictInsert_fresh kvs [] h (by simp)


theorem parseValue_body (f : Nat) (l : List Char) :
    parseValue (f + 1) l =
      (match skipWs l with
       | [] => Option.none
       | c :: r =>
         if c = 'n' then
           (match stripLit "ull".data r with
            | some r' => some (PyVal.none, r')
            | Option.none => Option.none)
         else if c = 't' then
           (match stripLit "rue".data r with
            | some r' => some (PyVal.bool true, r')
            | Option.none => Option.none)
         else if c = 'f' then
           (match stripLit "alse".data r with
            | some r' => some (PyVal.bool false, r')
            | Option.none => Option.none)
         else if c = '"' then
           (match parseJStr r with
            | some (s, r') => some (PyVal.str s, r')
            | Option.none => Option.none)
         else if c = '[' then
           (match skipWs r with
            | c2 :: r2 =>
              if c2 = ']' then some (PyVal.list [], r2)
              else
                (match parseItems f r with
                 | some (xs, r') => some (PyVal.list xs, r')
                 | Option.none => Option.none)
            | [] => Option.none)
         else if c = '{' then
           (match skipWs r with
            | c2 :: r2 =>
              if c2 = '}' then some (PyVal.dict [], r2)
              else
                (match parseMembers f r with
                 | some (kvs, r') =>
                   some (PyVal.dict (kvs.foldl (fun d p => dictInsert d p.1 p.2) []), r')
                 | Option.none => Option.none)
            | [] => Option.none)
         else parseNumber (c :: r)) := rfl

theorem parseValue_cons (f : Nat) (l : List Char) (c : Char) (r : List Char)
    (hskip : skipWs l = c :: r) :
    parseValue (f + 1) l =
      (if c = 'n' then
         (match stripLit "ull".data r with
          | some r' => some (PyVal.none, r')
          | Option.none => Option.none)
       else if c = 't' then
         (match stripLit "rue".data r with
          | some r' => some (PyVal.bool true, r')
          | Option.none => Option.none)
       else if c = 'f' then
         (match stripLit "alse".data r with
          | some r' => some (PyVal.bool false, r')
          | Option.none => Option.none)
       else if c = '"' then
         (match parseJStr r with
          | some (s, r') => some (PyVal.str s, r')
          | Option.none => Option.none)
       else if c = '[' then
         (match skipWs r with
          | c2 :: r2 =>
            if c2 = ']' then some (PyVal.list [], r2)
            else
              (match parseItems f r with
               | some (xs, r') => some (PyVal.list xs, r')
               | Option.none => Option.none)
          | [] => Option.none)
       else if c = '{' then
         (match skipWs r with
          | c2 :: r2 =>
            if c2 = '}' then some (PyVal.dict [], r2)
            else
              (match parseMembers f r with
               | some (kvs, r') =>
                 some (PyVal.dict (kvs.foldl (fun d p => dictInsert d p.1 p.2) []), r')
               | Option.none => Option.none)
          | [] => Option.none)
       else parseNumber (c :: r)) := by
  rw [parseValue_body f l, hskip]

theorem parseValue_digit (f : Nat) (c : Char) (y : List Char) (hc : isDigitChar c = true) :
    parseValue (f + 1) (c :: y) = parseNumber (c :: y) := by
  obtain ⟨hws, _, _, hn, ht, hf, hq, hbl, hbc, _, _, _⟩ := digit_facts c hc
  rw [parseValue_cons f _ c y (skipWs_cons_nws c y hws),
    if_neg hn, if_neg ht, if_neg hf, if_neg hq, if_neg hbl, if_neg hbc]

theorem parseValue_minus (f : Nat) (y : List Char) :
    parseValue (f + 1) ('-' :: y) = parseNumber ('-' :: y) := rfl

theorem parseValue_intDigits (f : Nat) (n : Int) (t : List Char) :
    parseValue (f + 1) (intDigits n ++ t) = parseNumber (intDigits n ++ t) := by
  by_cases hn : n < 0
  · rw [intDigits_neg n hn, List.cons_append, parseValue_minus]
  · rw [intDigits_nonneg n (by omega)]
    obtain ⟨hne, hdig, _⟩ := natDigits_spec n.toNat
    cases hcons : natDigits n.toNat with
    | nil => exact absurd hcons hne
    | cons c ds =>
      have hc : isDigitChar c = true := hdig c (by rw [hcons]; simp)
      rw [List.cons_append, parseValue_digit f c (ds ++ t) hc]

theorem parseItems_succ (f : Nat) (l : List Char) :
    parseItems (f + 1) l =
      (match parseValue f l with
       | some (v, r) =>
         (match skipWs r with
          | c :: r2 =>
            if c = ',' then
              (match parseItems f r2 with
               | some (vs, r') => some (v :: vs, r')
               | Option.none => Option.none)
            else if c = ']' then some ([v], r2)
            else Option.none
          | [] => Option.none)
       | Option.none => Option.none) := rfl

theorem parseMembers_str (f : Nat) (y : List Char) :
    parseMembers (f + 1) ('"' :: y) =
      (match parseJStr y with
       | some (k, r1) =>
         (match skipWs r1 with
          | c2 :: r2 =>
            if c2 = ':' then
              (match parseValue f r2 with
               | some (v, r3) =>
                 (match skipWs r3 with
                  | c3 :: r4 =>
                    if c3 = ',' then
                      (match parseMembers f r4 with
                       | some (kvs, r') => some ((k, v) :: kvs, r')
                       | Option.none => Option.none)
                    else if c3 = '}' then some ([(k, v)], r4)
                    else Option.none
                  | [] => Option.none)
               | Option.none => Option.none)
            else Option.none
          | [] => Option.none)
       | Option.none => Option.none) := rfl

theorem parseValue_ws (f : Nat) (x : List Char) :
    parseValue f (' ' :: x) = parseValue f x := by
  cases f with
  | zero => rfl
  | succ g => rfl

theorem parseItems_ws (f : Nat) (x : List Char) :
    parseItems f (' ' :: x) = parseItems f x := by
  cases f with
  | zero => rfl
  | succ g => rw [parseItems_succ, parseItems_succ, parseValue_ws]

theorem parseMembers_ws (f : Nat) (x : List Char) :
    parseMembers f (' ' :: x) = parseMembers f x := by
  cases f with
  | zero => rfl
  | succ g => rfl


theorem parse_dumps :
    ∀ f : Nat,
      (∀ v s rest, jsonable v = true → dumps v = some s → s.length < f → numStop rest →
          parseValue f (s ++ rest) = some (v, rest)) ∧
      (∀ xs parts rest, jsonableList xs = true → dumpsList xs = some parts → xs ≠ [] →
          (sepParts parts).length + 2 ≤ f →
          parseItems f (sepParts parts ++ ']' :: rest) = some (xs, rest)) ∧
      (∀ kvs parts rest, jsonableDict kvs = true → dumpsDict kvs = some parts → kvs ≠ [] →
          (sepParts parts).length + 2 ≤ f →
          parseMembers f (sepParts parts ++ '}' :: rest) = some (kvs, rest)) := by
  intro f
  induction f with
  | zero =>
    refine ⟨?_, ?_, ?_⟩
    · intro v s rest _ _ hlt _; omega
    · intro xs parts rest _ _ _ hle; omega
    · intro kvs parts rest _ _ _ hle; omega
  | succ f ih =>
    obtain ⟨ihV, ihI, ihM⟩ := ih
    refine ⟨?_, ?_, ?_⟩
    · -- one value
      intro v s rest hj hd hlen hstop
      cases v with
      | none =>
        have hs : s = "null".data := (Option.some.inj hd).symm
        subst hs; rfl
      | bool b =>
        cases b with
        | true =>
          have hs : s = "true".data := (Option.some.inj hd).symm
          subst hs; rfl
        | false =>
          have hs : s = "false".data := (Option.some.inj hd).symm
          subst hs; rfl
      | int n =>
        have hs : s = intDigits n := (Option.some.inj hd).symm
        subst hs
        rw [parseValue_intDigits f n rest, parseNumber_int n rest hstop]
      | float m e =>
        have hs : s = intDigits m ++ 'e' :: intDigits e := (Option.some.inj hd).symm
        subst hs
        rw [List.append_assoc, List.cons_append,
          parseValue_intDigits f m ('e' :: (intDigits e ++ rest)),
          ← List.cons_append, ← List.append_assoc, parseNumber_float m e rest hstop]
      | str s0 =>
        have hs : s = encodeStr s0 := (Option.some.inj hd).symm
        subst hs
        rw [show encodeStr s0 ++ rest = '"' :: (escBody s0 ++ '"' :: rest) by simp [encodeStr]]
        rw [show parseValue (f + 1) ('"' :: (escBody s0 ++ '"' :: rest)) =
              (match parseJStr (escBody s0 ++ '"' :: rest) with
               | some (s', r') => some (PyVal.str s', r')
               | Option.none => Option.none) from rfl]
        rw [parseJStr_escBody s0 rest]
      | bytes b => exact absurd hd (by simp [dumps])
      | obj => exact absurd hd (by simp [dumps])
      | list xs =>
        cases xs with
        | nil =>
          have hs : s = "[]".data := (Option.some.inj hd).symm
          subst hs; rfl
        | cons x xs' =>
          obtain ⟨parts, hdl, hs⟩ := dumps_list_inv (x :: xs') s hd
          subst hs
          obtain ⟨d, ds, hdx, hds, hparts⟩ := dumpsList_cons_inv x xs' parts hdl
          have hjl : jsonableList (x :: xs') = true := hj
          obtain ⟨c, d', hd', hws, hbr, _, _⟩ := dumps_head x d hdx
          have hsp : ∃ z, sepParts parts = c :: z := by
            subst hparts
            cases ds with
            | nil => exact ⟨d', by rw [show sepParts [d] = d from rfl, hd']⟩
            | cons d2 ds' =>
              refine ⟨d' ++ ',' :: ' ' :: sepParts (d2 :: ds'), ?_⟩
              rw [sepParts_cons, hd']
              rfl
          obtain ⟨z, hz⟩ := hsp
          have hfl : (sepParts parts).length + 2 ≤ f := by
            have h1 : ('[' :: (sepParts parts ++ [']'])).length =
                (sepParts parts).length + 2 := by simp
            omega
          rw [show ('[' :: (sepParts parts ++ [']'])) ++ rest =
                '[' :: (sepParts parts ++ ']' :: rest) by simp]
          rw [show parseValue (f + 1) ('[' :: (sepParts parts ++ ']' :: rest)) =
                (match skipWs (sepParts parts ++ ']' :: rest) with
                 | c2 :: r2 =>
                   if c2 = ']' then some (PyVal.list [], r2)
                   else
                     (match parseItems f (sepParts parts ++ ']' :: rest) with
                      | some (xs0, r') => some (PyVal.list xs0, r')
                      | Option.none => Option.none)
                 | [] => Option.none) from rfl]
          rw [show sepParts parts ++ ']' :: rest = c :: (z ++ ']' :: rest) by rw [hz]; rfl]
          rw [skipWs_cons_nws c _ hws]
          show (if c = ']' then some (PyVal.list [], z ++ ']' :: rest)
                else
                  (match parseItems f (c :: (z ++ ']' :: rest)) with
                   | some (xs0, r') => some (PyVal.list xs0, r')
                   | Option.none => Option.none)) = _
          rw [if_neg hbr]
          rw [show (c :: (z ++ ']' :: rest) : List Char) = sepParts parts ++ ']' :: rest by
            rw [hz]; rfl]
          rw [ihI (x :: xs') parts rest hjl hdl (by simp) hfl]
      | dict kvs =>
        cases kvs with
        | nil =>
          have hs : s = "{}".data := (Option.some.inj hd).symm
          subst hs; rfl
        | cons p kvs' =>
          obtain ⟨k0, v0⟩ := p
          obtain ⟨parts, hdd, hs⟩ := dumps_dict_inv ((k0, v0) :: kvs') s hd
          subst hs
          obtain ⟨d, ds, hdv, hds, hparts⟩ := dumpsDict_cons_inv k0 v0 kvs' parts hdd
          have hj' : (decide ((((k0, v0) :: kvs').map Prod.fst).Nodup) &&
              jsonableDict ((k0, v0) :: kvs')) = true := hj
          obtain ⟨hnd', hjd⟩ := (Bool.and_eq_true _ _) ▸ hj'
          have hnd : (((k0, v0) :: kvs').map Prod.fst).Nodup := of_decide_eq_true hnd'
          have hsp : ∃ z, sepParts parts = '"' :: z := by
            subst hparts
            cases ds with
            | nil =>
              refine ⟨(escBody k0 ++ ['"']) ++ ':' :: ' ' :: d, ?_⟩
              rw [show sepParts [encodeStr k0 ++ ':' :: ' ' :: d] =
                    encodeStr k0 ++ ':' :: ' ' :: d from rfl]
              rfl
            | cons d2 ds' =>
              refine ⟨((escBody k0 ++ ['"']) ++ ':' :: ' ' :: d) ++
                ',' :: ' ' :: sepParts (d2 :: ds'), ?_⟩
              rw [sepParts_cons]
              rfl
          obtain ⟨z, hz⟩ := hsp
          have hfl : (sepParts parts).length + 2 ≤ f := by
            have h1 : ('{' :: (sepParts parts ++ ['}'])).length =
                (sepParts parts).length + 2 := by simp
            omega
          rw [show ('{' :: (sepParts parts ++ ['}'])) ++ rest =
                '{' :: (sepParts parts ++ '}' :: rest) by simp]
          rw [show parseValue (f + 1) ('{' :: (sepParts parts ++ '}' :: rest)) =
                (match skipWs (sepParts parts ++ '}' :: rest) with
                 | c2 :: r2 =>
                   if c2 = '}' then some (PyVal.dict [], r2)
                   else
                     (match parseMembers f (sepParts parts ++ '}' :: rest) with
                      | some (kvs0, r') =>
                        some (PyVal.dict (kvs0.foldl (fun d0 p0 => dictInsert d0 p0.1 p0.2) []), r')
                      | Option.none => Option.none)
                 | [] => Option.none) from rfl]
          rw [show sepParts parts ++ '}' :: rest = '"' :: (z ++ '}' :: rest) by rw [hz]; rfl]
          rw [skipWs_cons_nws '"' _ (by decide)]
          show (if ('"' : Char) = '}' then some (PyVal.dict [], z ++ '}' :: rest)
                else
                  (match parseMembers f ('"' :: (z ++ '}' :: rest)) with
                   | some (kvs0, r') =>
                     some (PyVal.dict (kvs0.foldl (fun d0 p0 => dictInsert d0 p0.1 p0.2) []), r')
                   | Option.none => Option.none)) = _
          rw [if_neg (by decide)]
          rw [show ('"' :: (z ++ '}' :: rest) : List Char) = sepParts parts ++ '}' :: rest by
            rw [hz]; rfl]
          rw [ihM ((k0, v0) :: kvs') parts rest hjd hdd (by simp) hfl]
          show some (PyVal.dict (((k0, v0) :: kvs').foldl
            (fun d0 p0 => dictInsert d0 p0.1 p0.2) []), rest) = _
          rw [foldl_dictInsert_eq _ hnd]
    · -- items of a nonempty array
      intro xs parts rest hjl hdl hne hfl
      cases xs with
      | nil => exact absurd rfl hne
      | cons x xs' =>
        obtain ⟨d, ds, hdx, hds, hparts⟩ := dumpsList_cons_inv x xs' parts hdl
        subst hparts
        have hjx : jsonable x = true ∧ jsonableList xs' = true := by
          have h1 : (jsonable x && jsonableList xs') = true := hjl
          exact (Bool.and_eq_true _ _) ▸ h1
        obtain ⟨c, d', hd', _⟩ := dumps_head x d hdx
        have hdlen : 1 ≤ d.length := by rw [hd']; simp
        cases xs' with
        | nil =>
          have hds0 : ds = [] := (Option.some.inj hds).symm
          subst hds0
          have hf1 : d.length < f := by
            have h1 : (sepParts [d]).length = d.length := rfl
            omega
          rw [show sepParts [d] = d from rfl]
          rw [parseItems_succ, ihV x d (']' :: rest) hjx.1 hdx hf1
            (show numStop (']' :: rest) from ⟨by decide, by decide, by decide, by decide⟩)]
          rfl
        | cons x2 xs'' =>
          obtain ⟨d2, ds', hdx2, hds2, hparts'⟩ := dumpsList_cons_inv x2 xs'' ds hds
          subst hparts'
          have hlsp : (sepParts (d :: d2 :: ds')).length =
              d.length + 2 + (sepParts (d2 :: ds')).length := by
            rw [sepParts_cons]; simp; omega
          have hf1 : d.length < f := by omega
          have hf2 : (sepParts (d2 :: ds')).length + 2 ≤ f := by omega
          rw [sepParts_cons, List.append_assoc]
          rw [show (',' :: ' ' :: sepParts (d2 :: ds')) ++ ']' :: rest =
                ',' :: ' ' :: (sepParts (d2 :: ds') ++ ']' :: rest) from rfl]
          rw [parseItems_succ,
            ihV x d (',' :: ' ' :: (sepParts (d2 :: ds') ++ ']' :: rest)) hjx.1 hdx hf1
              (show numStop _ from ⟨by decide, by decide, by decide, by decide⟩)]
          show (match parseItems f (' ' :: (sepParts (d2 :: ds') ++ ']' :: rest)) with
                | some (vs, r') => some (x :: vs, r')
                | Option.none => Option.none) = _
          rw [parseItems_ws, ihI (x2 :: xs'') (d2 :: ds') rest hjx.2 hds (by simp) hf2]
    · -- members of a nonempty object
      intro kvs parts rest hjd hdd hne hfl
      cases kvs with
      | nil => exact absurd rfl hne
      | cons p kvs' =>
        obtain ⟨k0, v0⟩ := p
        obtain ⟨d, ds, hdv, hds, hparts⟩ := dumpsDict_cons_inv k0 v0 kvs' parts hdd
        subst hparts
        have hj2 : jsonable v0 = true ∧ jsonableDict kvs' = true := by
          have h1 : (jsonable v0 && jsonableDict kvs') = true := hjd
          exact (Bool.and_eq_true _ _) ▸ h1
        obtain ⟨c, d', hd', _⟩ := dumps_head v0 d hdv
        have hdlen : 1 ≤ d.length := by rw [hd']; simp
        have heklen : (encodeStr k0).length = (escBody k0).length + 2 := by
          simp [encodeStr]
        cases kvs' with
        | nil =>
          have hds0 : ds = [] := (Option.some.inj hds).symm
          subst hds0
          have hfrag : (sepParts [encodeStr k0 ++ ':' :: ' ' :: d]).length =
              (encodeStr k0).length + 2 + d.length := by
            rw [show sepParts [encodeStr k0 ++ ':' :: ' ' :: d] =
                  encodeStr k0 ++ ':' :: ' ' :: d from rfl]
            simp
            omega
          have hf1 : d.length < f := by omega
          rw [show sepParts [encodeStr k0 ++ ':' :: ' ' :: d] =
                encodeStr k0 ++ ':' :: ' ' :: d from rfl]
          rw [show (encodeStr k0 ++ ':' :: ' ' :: d) ++ '}' :: rest =
                '"' :: (escBody k0 ++ '"' :: (':' :: ' ' :: (d ++ '}' :: rest))) by
            simp [encodeStr]]
          rw [parseMembers_str f _]
          rw [parseJStr_escBody k0 (':' :: ' ' :: (d ++ '}' :: rest))]
          show (match parseValue f (' ' :: (d ++ '}' :: rest)) with
                | some (v, r3) =>
                  (match skipWs r3 with
                   | c3 :: r4 =>
                     if c3 = ',' then
                       (match parseMembers f r4 with
                        | some (kvs0, r') => some ((k0, v) :: kvs0, r')
                        | Option.none => Option.none)
                     else if c3 = '}' then some ([(k0, v)], r4)
                     else Option.none
                   | [] => Option.none)
                | Option.none => Option.none) = _
          rw [parseValue_ws, ihV v0 d ('}' :: rest) hj2.1 hdv hf1
            (show numStop ('}' :: rest) from ⟨by decide, by decide, by decide, by decide⟩)]
          rfl
        | cons p2 kvs'' =>
          obtain ⟨k2, v2⟩ := p2
          obtain ⟨d2, ds', hdv2, hds2, hparts'⟩ := dumpsDict_cons_inv k2 v2 kvs'' ds hds
          subst hparts'
          have hlsp : (sepParts ((encodeStr k0 ++ ':' :: ' ' :: d) ::
              (encodeStr k2 ++ ':' :: ' ' :: d2) :: ds')).length =
              (encodeStr k0).length + 2 + d.length + 2 +
                (sepParts ((encodeStr k2 ++ ':' :: ' ' :: d2) :: ds')).length := by
            rw [sepParts_cons]
            simp
            omega
          have hf1 : d.length < f := by omega
          have hf2 : (sepParts ((encodeStr k2 ++ ':' :: ' ' :: d2) :: ds')).length + 2 ≤ f := by
            omega
          rw [sepParts_cons, List.append_assoc]
          rw [show (',' :: ' ' :: sepParts ((encodeStr k2 ++ ':' :: ' ' :: d2) :: ds')) ++
                '}' :: rest =
              ',' :: ' ' :: (sepParts ((encodeStr k2 ++ ':' :: ' ' :: d2) :: ds') ++
                '}' :: rest) from rfl]
          rw [show (encodeStr k0 ++ ':' :: ' ' :: d) ++
                (',' :: ' ' :: (sepParts ((encodeStr k2 ++ ':' :: ' ' :: d2) :: ds') ++
                  '}' :: rest)) =
              '"' :: (escBody k0 ++ '"' :: (':' :: ' ' :: (d ++
                ',' :: ' ' :: (sepParts ((encodeStr k2 ++ ':' :: ' ' :: d2) :: ds') ++
                  '}' :: rest)))) by simp [encodeStr]]
          rw [parseMembers_str f _]
          rw [parseJStr_escBody k0 (':' :: ' ' :: (d ++
            ',' :: ' ' :: (sepParts ((encodeStr k2 ++ ':' :: ' ' :: d2) :: ds') ++
              '}' :: rest)))]
          show (match parseValue f (' ' :: (d ++
                  ',' :: ' ' :: (sepParts ((encodeStr k2 ++ ':' :: ' ' :: d2) :: ds') ++
                    '}' :: rest))) with
                | some (v, r3) =>
                  (match skipWs r3 with
                   | c3 :: r4 =>
                     if c3 = ',' then
                       (match parseMembers f r4 with
                        | some (kvs0, r') => some ((k0, v) :: kvs0, r')
                        | Option.none => Option.none)
                     else if c3 = '}' then some ([(k0, v)], r4)
                     else Option.none
                   | [] => Option.none)
                | Option.none => Option.none) = _
          rw [parseValue_ws, ihV v0 d
            (',' :: ' ' :: (sepParts ((encodeStr k2 ++ ':' :: ' ' :: d2) :: ds') ++
              '}' :: rest)) hj2.1 hdv hf1
            (show numStop _ from ⟨by decide, by decide, by decide, by decide⟩)]
          show (match parseMembers f
                  (' ' :: (sepParts ((encodeStr k2 ++ ':' :: ' ' :: d2) :: ds') ++
                    '}' :: rest)) with
                | some (kvs0, r') => some ((k0, v0) :: kvs0, r')
                | Option.none => Option.none) = _
          rw [parseMembers_ws, ihM ((k2, v2) :: kvs'')
            ((encodeStr k2 ++ ':' :: ' ' :: d2) :: ds') rest hj2.2 hds (by simp) hf2]


theorem loads_dumps (v : PyVal) (s : List Char) (hj : jsonable v = true)
    (hd : dumps v = some s) : loads s = some v := by
  have hA := (parse_dumps (s.length + 1)).1 v s [] hj hd (by omega) trivial
  rw [List.append_nil] at hA
  rw [show loads s =
        (match parseValue (s.length + 1) s with
         | some (v', rest) => if skipWs rest = [] then some v' else Option.none
         | Option.none => Option.none) from rfl]
  rw [hA]
  rfl

theorem dbGet_dbSet_self : ∀ (db : DB) (k s : Str), dbGet (dbSet db k s) k = some s := by
  intro db k s
  induction db with
  | nil => simp [dbSet, dbGet]
  | cons e rest ih =>
    obtain ⟨k', v'⟩ := e
    by_cases h : k' = k
    · subst h; simp [dbSet, dbGet]
    · simp [dbSet, dbGet, h, ih]

theorem dbGet_dbDel_self : ∀ (db : DB) (k : Str), dbGet (dbDel db k) k = Option.none := by
  intro db k
  induction db with
  | nil => rfl
  | cons e rest ih =>
    obtain ⟨k', v'⟩ := e
    by_cases h : k' = k
    · subst h; simp [dbDel, ih]
    · simp [dbDel, dbGet, h, ih]

theorem dbHas_dbDel_self (db : DB) (k : Str) : dbHas (dbDel db k) k = false := by
  simp [dbHas, dbGet_dbDel_self]

theorem dbGet_none_of_not_mem : ∀ (db : DB) (k : Str), k ∉ db.map Prod.fst →
    dbGet db k = Option.none := by
  intro db k h
  induction db with
  | nil => rfl
  | cons e rest ih =>
    obtain ⟨k', v'⟩ := e
    have h1 : k' ≠ k := by
      intro heq; exact h (by simp [heq])
    simp [dbGet, h1]
    exact ih (fun hm => h (by simp [hm]))

theorem dictGet_cons (k0 : Str) (v0 : PyVal) (rest : PyDict) (key : Str) :
    dictGet ((k0, v0) :: rest) key = if k0 = key then some v0 else dictGet rest key := rfl

theorem dictGet_replace_self : ∀ (d : PyDict) (k : Str) (v : PyVal),
    k ∈ d.map Prod.fst →
    dictGet (d.map (fun e => if e.1 = k then (k, v) else e)) k = some v := by
  intro d k v hmem
  induction d with
  | nil => simp at hmem
  | cons e rest ih =>
    obtain ⟨k', v'⟩ := e
    simp only [List.map_cons] at hmem ⊢
    by_cases h : k' = k
    · subst h
      rw [show ((if ((k', v') : Str × PyVal).1 = k' then ((k', v) : Str × PyVal)
            else (k', v')) = ((k', v) : Str × PyVal)) from if_pos rfl]
      rw [dictGet_cons, if_pos rfl]
    · rw [show ((if ((k', v') : Str × PyVal).1 = k then ((k, v) : Str × PyVal)
            else (k', v')) = ((k', v') : Str × PyVal)) from if_neg h]
      rw [dictGet_cons, if_neg h]
      apply ih
      rcases List.mem_cons.mp hmem with h1 | h1
      · exact absurd h1.symm h
      · exact h1

theorem dictGet_append_single : ∀ (d : PyDict) (k : Str) (v : PyVal),
    k ∉ d.map Prod.fst →
    dictGet (d ++ [(k, v)]) k = some v := by
  intro d k v hmem
  induction d with
  | nil => rw [List.nil_append, dictGet_cons, if_pos rfl]
  | cons e rest ih =>
    obtain ⟨k', v'⟩ := e
    have h1 : k' ≠ k := fun heq => hmem (by simp [heq])
    rw [List.cons_append, dictGet_cons, if_neg h1]
    exact ih (fun hm => hmem (by simp [hm]))

theorem dictGet_dictInsert_self (d : PyDict) (k : Str) (v : PyVal) :
    dictGet (dictInsert d k v) k = some v := by
  by_cases hmem : k ∈ d.map Prod.fst
  · rw [show dictInsert d k v = d.map (fun e => if e.1 = k then (k, v) else e) from
      if_pos hmem]
    exact dictGet_replace_self d k v hmem
  · rw [show dictInsert d k v = d ++ [(k, v)] from if_neg hmem]
    exact dictGet_append_single d k v hmem

theorem dictGet_replace_ne : ∀ (d : PyDict) (k' : Str) (v : PyVal) (key : Str),
    k' ≠ key →
    dictGet (d.map (fun e => if e.1 = k' then (k', v) else e)) key = dictGet d key := by
  intro d k' v key hne
  induction d with
  | nil => rfl
  | cons e rest ih =>
    obtain ⟨k0, v0⟩ := e
    simp only [List.map_cons]
    by_cases h : k0 = k'
    · subst h
      rw [show ((if ((k0, v0) : Str × PyVal).1 = k0 then ((k0, v) : Str × PyVal)
            else (k0, v0)) = ((k0, v) : Str × PyVal)) from if_pos rfl]
      rw [dictGet_cons, dictGet_cons, if_neg hne, if_neg hne]
      exact ih
    · rw [show ((if ((k0, v0) : Str × PyVal).1 = k' then ((k', v) : Str × PyVal)
            else (k0, v0)) = ((k0, v0) : Str × PyVal)) from if_neg h]
      rw [dictGet_cons, dictGet_cons]
      by_cases hk : k0 = key
      · rw [if_pos hk, if_pos hk]
      · rw [if_neg hk, if_neg hk]; exact ih

theorem dictGet_append_single_ne : ∀ (d : PyDict) (k' : Str) (v : PyVal) (key : Str),
    k' ≠ key →
    dictGet (d ++ [(k', v)]) key = dictGet d key := by
  intro d k' v key hne
  induction d with
  | nil => rw [List.nil_append, dictGet_cons, if_neg hne]
  | cons e rest ih =>
    obtain ⟨k0, v0⟩ := e
    rw [List.cons_append, dictGet_cons, dictGet_cons]
    by_cases hk : k0 = key
    · rw [if_pos hk, if_pos hk]
    · rw [if_neg hk, if_neg hk]; exact ih

theorem dictGet_dictInsert_ne (d : PyDict) (k' : Str) (v : PyVal) (key : Str)
    (hne : k' ≠ key) :
    dictGet (dictInsert d k' v) key = dictGet d key := by
  by_cases hmem : k' ∈ d.map Prod.fst
  · rw [show dictInsert d k' v = d.map (fun e => if e.1 = k' then (k', v) else e) from
      if_pos hmem]
    exact dictGet_replace_ne d k' v key hne
  · rw [show dictInsert d k' v = d ++ [(k', v)] from if_neg hmem]
    exact dictGet_append_single_ne d k' v key hne

theorem isPrefixOf_pk (key : Str) : List.isPrefixOf PREFS_NS (pk key) = true := by
  rw [List.isPrefixOf_iff_prefix]
  exact List.prefix_append _ _

theorem drop_pk (key : Str) : (pk key).drop PREFS_NS.length = key :=
  List.drop_left _ _

theorem eq_pk_of_isPrefixOf (k : Str) (h : List.isPrefixOf PREFS_NS k = true) :
    k = pk (k.drop PREFS_NS.length) := by
  rw [List.isPrefixOf_iff_prefix] at h
  obtain ⟨t, ht⟩ := h
  subst ht
  rw [List.drop_left]
  rfl

mutual

theorem jsonable_dumps : ∀ v : PyVal, jsonable v = true → ∃ s, dumps v = some s
  | PyVal.none, _ => ⟨_, rfl⟩
  | PyVal.bool b, _ => ⟨_, rfl⟩
  | PyVal.int n, _ => ⟨_, rfl⟩
  | PyVal.float m e, _ => ⟨_, rfl⟩
  | PyVal.str s, _ => ⟨_, rfl⟩
  | PyVal.bytes s, h => absurd h (by simp [jsonable])
  | PyVal.obj, h => absurd h (by simp [jsonable])
  | PyVal.list xs, h => by
    obtain ⟨parts, hp⟩ := jsonableList_dumpsList xs h
    refine ⟨'[' :: (sepParts parts ++ [']']), ?_⟩
    rw [show dumps (PyVal.list xs) =
          (dumpsList xs).map (fun parts => '[' :: (sepParts parts ++ [']'])) from rfl, hp]
    rfl
  | PyVal.dict kvs, h => by
    have h2 : jsonableDict kvs = true :=
      ((Bool.and_eq_true _ _) ▸ (h : (decide (kvs.map Prod.fst).Nodup &&
        jsonableDict kvs) = true)).2
    obtain ⟨parts, hp⟩ := jsonableDict_dumpsDict kvs h2
    refine ⟨'{' :: (sepParts parts ++ ['}']), ?_⟩
    rw [show dumps (PyVal.dict kvs) =
          (dumpsDict kvs).map (fun parts => '{' :: (sepParts parts ++ ['}'])) from rfl, hp]
    rfl

theorem jsonableList_dumpsList : ∀ xs : List PyVal, jsonableList xs = true →
    ∃ parts, dumpsList xs = some parts
  | [], _ => ⟨[], rfl⟩
  | v :: vs, h => by
    obtain ⟨h1, h2⟩ := (Bool.and_eq_true _ _) ▸
      (h : (jsonable v && jsonableList vs) = true)
    obtain ⟨d, hd⟩ := jsonable_dumps v h1
    obtain ⟨ds, hds⟩ := jsonableList_dumpsList vs h2
    refine ⟨d :: ds, ?_⟩
    rw [show dumpsList (v :: vs) =
          (match dumps v, dumpsList vs with
           | some d, some ds => some (d :: ds)
           | _, _ => Option.none) from rfl, hd, hds]

theorem jsonableDict_dumpsDict : ∀ kvs : List (Str × PyVal), jsonableDict kvs = true →
    ∃ parts, dumpsDict kvs = some parts
  | [], _ => ⟨[], rfl⟩
  | (k, v) :: rest, h => by
    obtain ⟨h1, h2⟩ := (Bool.and_eq_true _ _) ▸
      (h : (jsonable v && jsonableDict rest) = true)
    obtain ⟨d, hd⟩ := jsonable_dumps v h1
    obtain ⟨ds, hds⟩ := jsonableDict_dumpsDict rest h2
    refine ⟨(encodeStr k ++ ':' :: ' ' :: d) :: ds, ?_⟩
    rw [show dumpsDict ((k, v) :: rest) =
          (match dumps v, dumpsDict rest with
           | some d, some ds => some ((encodeStr k ++ ':' :: ' ' :: d) :: ds)
           | _, _ => Option.none) from rfl, hd, hds]

end


theorem dbGet_cons (k' : Str) (v : Str) (rest : DB) (k : Str) :
    dbGet ((k', v) :: rest) k = if k' = k then some v else dbGet rest k := rfl

theorem allGo_cons (k v : Str) (rest : DB) (out : PyDict) :
    Preferences.allGo ((k, v) :: rest) out =
      Preferences.allGo rest
        (if List.isPrefixOf PREFS_NS k then
          dictInsert out (k.drop PREFS_NS.length) (Preferences.decodeAll v)
         else out) := rfl

theorem allGo_lookup : ∀ (db : DB) (out : PyDict) (key : Str),
    (db.map Prod.fst).Nodup →
    dictGet (Preferences.allGo db out) key =
      (match dbGet db (pk key) with
       | some v => some (Preferences.decodeAll v)
       | Option.none => dictGet out key) := by
  intro db
  induction db with
  | nil => intro out key _; rfl
  | cons e rest ih =>
    obtain ⟨k, v⟩ := e
    intro out key hnd
    simp only [List.map_cons, List.nodup_cons] at hnd
    obtain ⟨hk_not, hnd2⟩ := hnd
    rw [allGo_cons, dbGet_cons]
    by_cases hk : k = pk key
    · subst hk
      rw [if_pos rfl, if_pos (isPrefixOf_pk key), drop_pk]
      rw [ih _ key hnd2]
      rw [dbGet_none_of_not_mem rest (pk key) hk_not]
      show dictGet (dictInsert out key (Preferences.decodeAll v)) key =
        some (Preferences.decodeAll v)
      exact dictGet_dictInsert_self out key (Preferences.decodeAll v)
    · rw [if_neg hk]
      by_cases hp : List.isPrefixOf PREFS_NS k = true
      · rw [if_pos hp]
        rw [ih _ key hnd2]
        have hne : k.drop PREFS_NS.length ≠ key := by
          intro heq
          apply hk
          rw [eq_pk_of_isPrefixOf k hp, heq]
        rw [dictGet_dictInsert_ne out _ _ key hne]
      · rw [if_neg hp]
        exact ih _ key hnd2

theorem dbDel_eq_filter : ∀ (db : DB) (k : Str),
    dbDel db k = db.filter (fun e => decide (e.1 ≠ k)) := by
  intro db k
  induction db with
  | nil => rfl
  | cons e rest ih =>
    obtain ⟨k', v'⟩ := e
    by_cases h : k' = k
    · subst h
      simp [dbDel, List.filter_cons, ih]
    · simp [dbDel, List.filter_cons, h, ih]

theorem foldl_dbDel_filter : ∀ (ks : List Str) (db : DB),
    ks.foldl dbDel db = db.filter (fun e => decide (e.1 ∉ ks)) := by
  intro ks
  induction ks with
  | nil =>
    intro db
    simp
  | cons k ks ih =>
    intro db
    rw [List.foldl_cons, ih (dbDel db k), dbDel_eq_filter, List.filter_filter]
    apply List.filter_congr
    intro e _
    by_cases h1 : e.1 = k <;> by_cases h2 : e.1 ∈ ks <;> simp [h1, h2]

theorem clear_snd (db : DB) :
    (Preferences.clear db).2 =
      db.filter (fun e => !(List.isPrefixOf PREFS_NS e.1)) := by
  show ((db.map Prod.fst).filter (fun k => List.isPrefixOf PREFS_NS k)).foldl dbDel db = _
  rw [foldl_dbDel_filter]
  apply List.filter_congr
  intro e he
  by_cases hp : List.isPrefixOf PREFS_NS e.1 = true
  · have hm : e.1 ∈ (db.map Prod.fst).filter (fun k => List.isPrefixOf PREFS_NS k) :=
      List.mem_filter.mpr ⟨List.mem_map_of_mem _ he, hp⟩
    simp [hm, hp]
  · have hm : e.1 ∉ (db.map Prod.fst).filter (fun k => List.isPrefixOf PREFS_NS k) := by
      intro hmem
      exact hp (List.mem_filter.mp hmem).2
    have hp2 : List.isPrefixOf PREFS_NS e.1 = false := Bool.eq_false_iff.mpr hp
    simp [hm, hp2]

theorem clear_fst (db : DB) :
    (Preferences.clear db).1 =
      (db.filter (fun e => List.isPrefixOf PREFS_NS e.1)).length := by
  show ((db.map Prod.fst).filter (fun k => List.isPrefixOf PREFS_NS k)).length = _
  induction db with
  | nil => rfl
  | cons e rest ih =>
    obtain ⟨k, v⟩ := e
    by_cases hp : List.isPrefixOf PREFS_NS k = true
    · simp only [List.map_cons, List.filter_cons]
      simp [hp, ih]
    · simp only [List.map_cons, List.filter_cons]
      simp [hp, ih]

theorem allGo_filter : ∀ (db : DB) (out : PyDict),
    Preferences.allGo db out =
      Preferences.allGo (db.filter (fun e => List.isPrefixOf PREFS_NS e.1)) out := by
  intro db
  induction db with
  | nil => intro out; rfl
  | cons e rest ih =>
    obtain ⟨k, v⟩ := e
    intro out
    by_cases hp : List.isPrefixOf PREFS_NS k = true
    · have hfil : (((k, v) :: rest).filter (fun e => List.isPrefixOf PREFS_NS e.1)) =
          (k, v) :: rest.filter (fun e => List.isPrefixOf PREFS_NS e.1) := by
        simp [List.filter_cons, hp]
      rw [allGo_cons, if_pos hp, hfil, allGo_cons, if_pos hp]
      exact ih _
    · have hfil : (((k, v) :: rest).filter (fun e => List.isPrefixOf PREFS_NS e.1)) =
          rest.filter (fun e => List.isPrefixOf PREFS_NS e.1) := by
        simp [List.filter_cons, hp]
      rw [allGo_cons, if_neg hp, hfil]
      exact ih _


theorem get_absent (db : DB) (key : Str) (d : PyVal) (t : Option PyType)
    (h : dbGet db (pk key) = Option.none) :
    Preferences.get db key d t = d := by
  simp [Preferences.get, h]

theorem get_present_none (db : DB) (key : Str) (d : PyVal) (s : Str)
    (h : dbGet db (pk key) = some s) :
    Preferences.get db key d Option.none = Preferences.decodeStored s := by
  simp [Preferences.get, h]

theorem get_present_some (db : DB) (key : Str) (d : PyVal) (t : PyType) (s : Str)
    (h : dbGet db (pk key) = some s) :
    Preferences.get db key d (some t) =
      (if isNone (Preferences.decodeStored s) then Preferences.decodeStored s
       else coerce t (Preferences.decodeStored s) d) := by
  simp [Preferences.get, h]

theorem decodeStored_some (s : Str) (v : PyVal) (h : loads s = some v) :
    Preferences.decodeStored s = v := by
  simp [Preferences.decodeStored, h]

theorem decodeStored_none (s : Str) (h : loads s = Option.none) :
    Preferences.decodeStored s = PyVal.bytes s := by
  simp [Preferences.decodeStored, h]

theorem decodeAll_some (s : Str) (v : PyVal) (h : loads s = some v) :
    Preferences.decodeAll s = v := by
  simp [Preferences.decodeAll, h]

theorem decodeAll_none (s : Str) (h : loads s = Option.none) :
    Preferences.decodeAll s = PyVal.str s := by
  simp [Preferences.decodeAll, h]

theorem set_eq (db : DB) (key : Str) (v : PyVal) (s : Str) (h : dumps v = some s) :
    Preferences.set db key v = Except.ok (dbSet db (pk key) s) := by
  simp [Preferences.set, h]

theorem set_err (db : DB) (key : Str) (v : PyVal) (h : dumps v = Option.none) :
    Preferences.set db key v = Except.error () := by
  simp [Preferences.set, h]

theorem coerce_int_eq (v d : PyVal) : coerce PyType.int v d = coerceCast PyType.int v d := by
  cases v <;> rfl

theorem coerce_float_eq (v d : PyVal) :
    coerce PyType.float v d = coerceCast PyType.float v d := by
  cases v <;> rfl

theorem castTo_bool_some (v : PyVal) :
    castTo PyType.bool v = some (PyVal.bool (pyTruthy v)) := rfl

theorem coerceCast_none (t : PyType) (v d : PyVal) (h : castTo t v = Option.none) :
    coerceCast t v d = d := by
  simp [coerceCast, h]

/-- C1: for every JSON-representable value `v` (null, booleans, integers,
floats, strings including empty and Unicode, sequences, string-keyed
mappings) and every key, `set` succeeds and a subsequent `get` with no
coercion on the resulting store returns a value equal to `v`. -/
theorem c1_set_get_roundtrip (db : DB) (key : Str) (v : PyVal)
    (hj : jsonable v = true) :
    ∃ db2, Preferences.set db key v = Except.ok db2 ∧
      Preferences.get db2 key PyVal.none Option.none = v := by
  obtain ⟨s, hs⟩ := jsonable_dumps v hj
  refine ⟨dbSet db (pk key) s, set_eq db key v s hs, ?_⟩
  rw [get_present_none _ _ _ s (dbGet_dbSet_self db (pk key) s)]
  exact decodeStored_some s v (loads_dumps v s hj hs)

theorem c1_set_get_roundtrip_witness :
    ∃ db2, Preferences.set [] "k".data demoVal = Except.ok db2 ∧
      Preferences.get db2 "k".data PyVal.none Option.none = demoVal :=
  c1_set_get_roundtrip [] "k".data demoVal (by decide)

/-- C3: a stored value that is not valid JSON under the namespaced key is
returned verbatim by `get` (as the raw bytes, not an exception), and
`exists` still reports the key present. -/
theorem c3_legacy_raw_fallback (db : DB) (key : Str) (s : Str)
    (h1 : dbGet db (pk key) = some s) (h2 : loads s = Option.none) :
    Preferences.get db key PyVal.none Option.none = PyVal.bytes s ∧
      Preferences.exists' db key = true := by
  refine ⟨?_, ?_⟩
  · rw [get_present_none db key PyVal.none s h1]
    exact decodeStored_none s h2
  · simp [Preferences.exists', dbHas, h1]

theorem c3_legacy_raw_fallback_witness :
    Preferences.get [(pk "k".data, "raw_bytes_value".data)] "k".data PyVal.none
        Option.none = PyVal.bytes "raw_bytes_value".data ∧
      Preferences.exists' [(pk "k".data, "raw_bytes_value".data)] "k".data = true :=
  c3_legacy_raw_fallback [(pk "k".data, "raw_bytes_value".data)] "k".data
    "raw_bytes_value".data rfl rfl

/-- C6: when the key is present, its decoded value is not `None`, and
constructing the requested type from the decoded value fails, `get`
returns the caller-supplied default (never an exception, never the
uncoerced value). -/
theorem c6_coercion_failure_default (db : DB) (key : Str) (s : Str) (d : PyVal)
    (t : PyType)
    (h1 : dbGet db (pk key) = some s)
    (h2 : isNone (Preferences.decodeStored s) = false)
    (h3 : castTo t (Preferences.decodeStored s) = Option.none) :
    Preferences.get db key d (some t) = d := by
  rw [get_present_some db key d t s h1, if_neg (by simp [h2])]
  cases t with
  | bool =>
    rw [castTo_bool_some] at h3
    cases h3
  | int =>
    rw [coerce_int_eq]
    exact coerceCast_none _ _ _ h3
  | float =>
    rw [coerce_float_eq]
    exact coerceCast_none _ _ _ h3

theorem c6_coercion_failure_default_witness :
    Preferences.get [(pk "k".data, encodeStr "not_a_number".data)] "k".data
        (PyVal.int 99) (some PyType.int) = PyVal.int 99 :=
  c6_coercion_failure_default [(pk "k".data, encodeStr "not_a_number".data)]
    "k".data (encodeStr "not_a_number".data) (PyVal.int 99) PyType.int rfl rfl rfl

/-- C7: an absent namespaced key makes `get` return the caller-supplied
default exactly, for every default and every requested coercion type
(including none), with no coercion applied to the default. -/
theorem c7_default_on_miss (db : DB) (key : Str) (d : PyVal) (t : Option PyType)
    (h : dbGet db (pk key) = Option.none) :
    Preferences.get db key d t = d :=
  get_absent db key d t h

theorem c7_default_on_miss_witness :
    Preferences.get [] "nonexistent".data (PyVal.int 42) (some PyType.int) =
        PyVal.int 42 ∧
      Preferences.get [("other:k".data, "1".data)] "nonexistent".data PyVal.none
        Option.none = PyVal.none :=
  ⟨c7_default_on_miss [] "nonexistent".data (PyVal.int 42) (some PyType.int) rfl,
   c7_default_on_miss [("other:k".data, "1".data)] "nonexistent".data PyVal.none
     Option.none rfl⟩

/-- C10: `set` evaluates the JSON serialization before touching the
mapping, so a non-serializable value raises with the mapping left exactly
as it was, while a serializable value performs the single namespaced
write. -/
theorem c10_failed_set_no_write (db : DB) (key : Str) (v : PyVal) :
    (dumps v = Option.none → Preferences.set db key v = Except.error ()) ∧
    (∀ s, dumps v = some s →
        Preferences.set db key v = Except.ok (dbSet db (pk key) s)) :=
  ⟨fun h => set_err db key v h, fun s h => set_eq db key v s h⟩

theorem c10_failed_set_no_write_witness :
    Preferences.set [(pk "k".data, "1".data)] "k".data PyVal.obj =
        Except.error () ∧
      Preferences.set [] "k".data (PyVal.int 1) =
        Except.ok (dbSet [] (pk "k".data) "1".data) :=
  ⟨(c10_failed_set_no_write [(pk "k".data, "1".data)] "k".data PyVal.obj).1 rfl,
   (c10_failed_set_no_write [] "k".data (PyVal.int 1)).2 "1".data rfl⟩


theorem contains_mem {x : Str} {l : List Str} (h : l.contains x = true) : x ∈ l := by
  induction l with
  | nil => cases h
  | cons a as ih =>
    simp only [List.contains_cons] at h
    rcases (Bool.or_eq_true _ _) ▸ h with h1 | h1
    · exact (eq_of_beq h1) ▸ List.mem_cons_self a as
    · exact List.mem_cons_of_mem a (ih h1)

theorem truthy_falsy_disjoint (x : Str) :
    truthyStrs.contains x = true → falsyStrs.contains x = true → False := by
  intro h1 h2
  have m1 : x ∈ truthyStrs := contains_mem h1
  have m2 : x ∈ falsyStrs := contains_mem h2
  simp only [truthyStrs, List.mem_cons, List.not_mem_nil, or_false] at m1
  simp only [falsyStrs, List.mem_cons, List.not_mem_nil, or_false] at m2
  rcases m1 with h | h | h | h | h <;> subst h <;>
    rcases m2 with g | g | g | g | g <;> exact absurd g (by decide)

/-- C5: for a stored string, `get` with boolean coercion consults the
stripped, lowercased string: members of the truthy table yield `true`,
members of the falsy table yield `false`, and any other string falls
through to generic `bool(...)` construction. -/
theorem c5_bool_coercion_table (db db2 : DB) (key : Str) (s : Str) (d : PyVal)
    (hset : Preferences.set db key (PyVal.str s) = Except.ok db2) :
    (truthyStrs.contains (pyLower (pyStrip s)) = true →
        Preferences.get db2 key d (some PyType.bool) = PyVal.bool true) ∧
    (falsyStrs.contains (pyLower (pyStrip s)) = true →
        Preferences.get db2 key d (some PyType.bool) = PyVal.bool false) ∧
    (truthyStrs.contains (pyLower (pyStrip s)) = false →
      falsyStrs.contains (pyLower (pyStrip s)) = false →
        Preferences.get db2 key d (some PyType.bool) =
          PyVal.bool (pyTruthy (PyVal.str s))) := by
  have hset2 : Except.ok (dbSet db (pk key) (encodeStr s)) =
      (Except.ok db2 : Except Unit DB) := by
    rw [← set_eq db key (PyVal.str s) (encodeStr s) rfl]
    exact hset
  have hdb : db2 = dbSet db (pk key) (encodeStr s) := (Except.ok.inj hset2).symm
  subst hdb
  have hd : Preferences.decodeStored (encodeStr s) = PyVal.str s :=
    decodeStored_some _ _ (loads_dumps (PyVal.str s) (encodeStr s) rfl rfl)
  have hg : Preferences.get (dbSet db (pk key) (encodeStr s)) key d
      (some PyType.bool) = coerce PyType.bool (PyVal.str s) d := by
    rw [get_present_some _ _ _ _ _ (dbGet_dbSet_self db (pk key) (encodeStr s)), hd]
    rfl
  rw [hg]
  refine ⟨?_, ?_, ?_⟩
  · intro ht
    show (if truthyStrs.contains (pyLower (pyStrip s)) = true then PyVal.bool true
          else if falsyStrs.contains (pyLower (pyStrip s)) = true then PyVal.bool false
          else coerceCast PyType.bool (PyVal.str s) d) = PyVal.bool true
    rw [if_pos ht]
  · intro hf
    show (if truthyStrs.contains (pyLower (pyStrip s)) = true then PyVal.bool true
          else if falsyStrs.contains (pyLower (pyStrip s)) = true then PyVal.bool false
          else coerceCast PyType.bool (PyVal.str s) d) = PyVal.bool false
    by_cases ht : truthyStrs.contains (pyLower (pyStrip s)) = true
    · exact absurd hf (fun hf2 => truthy_falsy_disjoint _ ht hf2)
    · rw [if_neg ht, if_pos hf]
  · intro ht hf
    show (if truthyStrs.contains (pyLower (pyStrip s)) = true then PyVal.bool true
          else if falsyStrs.contains (pyLower (pyStrip s)) = true then PyVal.bool false
          else coerceCast PyType.bool (PyVal.str s) d) =
        PyVal.bool (pyTruthy (PyVal.str s))
    have ht2 : ¬truthyStrs.contains (pyLower (pyStrip s)) = true := fun hc => by
      rw [ht] at hc
      cases hc
    have hf2 : ¬falsyStrs.contains (pyLower (pyStrip s)) = true := fun hc => by
      rw [hf] at hc
      cases hc
    rw [if_neg ht2, if_neg hf2]
    rfl

theorem c5_bool_coercion_table_witness :
    Preferences.get (dbSet [] (pk "a".data) (encodeStr " True ".data)) "a".data
        PyVal.none (some PyType.bool) = PyVal.bool true ∧
      Preferences.get (dbSet [] (pk "b".data) (encodeStr "OFF".data)) "b".data
        PyVal.none (some PyType.bool) = PyVal.bool false ∧
      Preferences.get (dbSet [] (pk "c".data) (encodeStr "maybe".data)) "c".data
        PyVal.none (some PyType.bool) =
          PyVal.bool (pyTruthy (PyVal.str "maybe".data)) :=
  ⟨(c5_bool_coercion_table [] _ "a".data " True ".data PyVal.none rfl).1 (by decide),
   (c5_bool_coercion_table [] _ "b".data "OFF".data PyVal.none rfl).2.1 (by decide),
   (c5_bool_coercion_table [] _ "c".data "maybe".data PyVal.none rfl).2.2
     (by decide) (by decide)⟩

/-- C8: `delete` returns `true` and removes the entry exactly when the
namespaced key exists (after which `exists` is false), returns `false` with
the store unchanged otherwise, and after one successful `set` two
consecutive deletes return `true` then `false`. -/
theorem c8_idempotent_delete (db : DB) (key : Str) :
    (dbHas db (pk key) = true →
        Preferences.delete db key = (true, dbDel db (pk key)) ∧
          Preferences.exists' (Preferences.delete db key).2 key = false) ∧
    (dbHas db (pk key) = false → Preferences.delete db key = (false, db)) ∧
    (∀ v db2, Preferences.set db key v = Except.ok db2 →
        (Preferences.delete db2 key).1 = true ∧
          (Preferences.delete (Preferences.delete db2 key).2 key).1 = false) := by
  refine ⟨?_, ?_, ?_⟩
  · intro h
    have hdel : Preferences.delete db key = (true, dbDel db (pk key)) := by
      simp [Preferences.delete, h]
    refine ⟨hdel, ?_⟩
    rw [hdel]
    show dbHas (dbDel db (pk key)) (pk key) = false
    exact dbHas_dbDel_self db (pk key)
  · intro h
    simp [Preferences.delete, h]
  · intro v db2 hset
    cases hs : dumps v with
    | none =>
      rw [set_err db key v hs] at hset
      cases hset
    | some s =>
      rw [set_eq db key v s hs] at hset
      have hdb : db2 = dbSet db (pk key) s := (Except.ok.inj hset).symm
      subst hdb
      have hhas : dbHas (dbSet db (pk key) s) (pk key) = true := by
        simp [dbHas, dbGet_dbSet_self]
      have hdel1 : Preferences.delete (dbSet db (pk key) s) key =
          (true, dbDel (dbSet db (pk key) s) (pk key)) := by
        simp [Preferences.delete, hhas]
      refine ⟨by rw [hdel1], ?_⟩
      rw [hdel1]
      show (Preferences.delete (dbDel (dbSet db (pk key) s) (pk key)) key).1 = false
      simp [Preferences.delete, dbHas_dbDel_self]

theorem c8_idempotent_delete_witness :
    Preferences.delete [(pk "k".data, "1".data)] "k".data =
        (true, dbDel [(pk "k".data, "1".data)] (pk "k".data)) ∧
      Preferences.delete [] "k".data = (false, []) ∧
      (Preferences.delete (dbSet [] (pk "k".data) "1".data) "k".data).1 = true ∧
      (Preferences.delete
          (Preferences.delete (dbSet [] (pk "k".data) "1".data) "k".data).2
          "k".data).1 = false :=
  ⟨((c8_idempotent_delete [(pk "k".data, "1".data)] "k".data).1 (by decide)).1,
   (c8_idempotent_delete [] "k".data).2.1 rfl,
   ((c8_idempotent_delete [] "k".data).2.2 (PyVal.int 1)
     (dbSet [] (pk "k".data) "1".data) rfl).1,
   ((c8_idempotent_delete [] "k".data).2.2 (PyVal.int 1)
     (dbSet [] (pk "k".data) "1".data) rfl).2⟩

/-- C2: entries outside the `"prefs:"` namespace are invisible to `all`,
survive `clear` untouched, and `clear` reports exactly the number of
namespaced entries. -/
theorem c2_namespace_isolation (db : DB) :
    Preferences.all db =
        Preferences.all (db.filter (fun e => List.isPrefixOf PREFS_NS e.1)) ∧
      (Preferences.clear db).1 =
        (db.filter (fun e => List.isPrefixOf PREFS_NS e.1)).length ∧
      (Preferences.clear db).2 =
        db.filter (fun e => !(List.isPrefixOf PREFS_NS e.1)) ∧
      ∀ e ∈ db, List.isPrefixOf PREFS_NS e.1 = false →
        e ∈ (Preferences.clear db).2 := by
  refine ⟨allGo_filter db [], clear_fst db, clear_snd db, ?_⟩
  intro e he hp
  rw [clear_snd db]
  exact List.mem_filter.mpr ⟨he, by simp [hp]⟩

theorem c2_namespace_isolation_witness :
    (Preferences.clear sampleStore).1 = 5 ∧
      ("other:key".data, "x".data) ∈ (Preferences.clear sampleStore).2 :=
  ⟨((c2_namespace_isolation sampleStore).2.1).trans (by decide),
   (c2_namespace_isolation sampleStore).2.2.2 ("other:key".data, "x".data)
     (by decide) (by decide)⟩

/-- C4 counterexample: for a legacy non-JSON stored value, `all` maps the
key to a `str` (the bytes were text-decoded before `json.loads`), while
`get` returns the raw `bytes`, so the two decode policies differ. -/
theorem c4_all_vs_get_counterexample :
    dictGet (Preferences.all [(pk "a".data, "raw".data)]) "a".data =
        some (PyVal.str "raw".data) ∧
      Preferences.get [(pk "a".data, "raw".data)] "a".data PyVal.none
        Option.none = PyVal.bytes "raw".data ∧
      PyVal.str "raw".data ≠ PyVal.bytes "raw".data := by
  refine ⟨rfl, rfl, ?_⟩
  intro h
  cases h

/-- C4, amended: for a present namespaced key in a store with distinct raw
keys, `all` maps the stripped key to `decodeAll` of the stored value and
`get` returns `decodeStored` of it; the two agree on every JSON-decodable
value and differ precisely on the fallback, where `all` yields the stored
text as `str` and `get` yields it as `bytes`. -/
theorem c4_all_decode_amended (db : DB) (key : Str) (s : Str) (d : PyVal)
    (hnd : (db.map Prod.fst).Nodup) (h : dbGet db (pk key) = some s) :
    dictGet (Preferences.all db) key = some (Preferences.decodeAll s) ∧
      Preferences.get db key d Option.none = Preferences.decodeStored s ∧
      (∀ v, loads s = some v →
        Preferences.decodeAll s = v ∧ Preferences.decodeStored s = v) ∧
      (loads s = Option.none →
        Preferences.decodeAll s = PyVal.str s ∧
          Preferences.decodeStored s = PyVal.bytes s) := by
  refine ⟨?_, get_present_none db key d s h, ?_, ?_⟩
  · rw [show Preferences.all db = Preferences.allGo db [] from rfl,
      allGo_lookup db [] key hnd, h]
  · intro v hv
    exact ⟨decodeAll_some s v hv, decodeStored_some s v hv⟩
  · intro hv
    exact ⟨decodeAll_none s hv, decodeStored_none s hv⟩

theorem c4_all_decode_amended_witness :
    dictGet (Preferences.all [(pk "a".data, encodeStr "x".data),
        (pk "b".data, "raw".data)]) "a".data =
        some (Preferences.decodeAll (encodeStr "x".data)) ∧
      Preferences.get [(pk "a".data, encodeStr "x".data),
          (pk "b".data, "raw".data)] "a".data PyVal.none Option.none =
        Preferences.decodeStored (encodeStr "x".data) ∧
      (∀ v, loads (encodeStr "x".data) = some v →
        Preferences.decodeAll (encodeStr "x".data) = v ∧
          Preferences.decodeStored (encodeStr "x".data) = v) ∧
      (loads (encodeStr "x".data) = Option.none →
        Preferences.decodeAll (encodeStr "x".data) = PyVal.str (encodeStr "x".data) ∧
          Preferences.decodeStored (encodeStr "x".data) =
            PyVal.bytes (encodeStr "x".data)) :=
  c4_all_decode_amended [(pk "a".data, encodeStr "x".data),
    (pk "b".data, "raw".data)] "a".data (encodeStr "x".data) PyVal.none
    (by decide) rfl

/-- C9: `get_database_dir` on a fresh filesystem returns the `db`
subdirectory path, but only the parent working directory has been created;
the returned target directory itself is never created, contradicting the
claim that the resolver creates its target if missing. -/
theorem c9_database_dir_not_created :
    (get_database_dir "/Users/u".data []).2 =
        "/Users/u/Library/Application Support/Loom/db".data ∧
      (get_database_dir "/Users/u".data []).1 =
        ["/Users/u/Library/Application Support/Loom".data] ∧
      (get_database_dir "/Users/u".data []).2 ∉
        (get_database_dir "/Users/u".data []).1 := by
  refine ⟨rfl, rfl, ?_⟩
  decide

end Loom
